import Mathlib

/-!
Verification of the structly-whois-parser normalization-and-record-synthesis
pipeline.  The Python modules `records.py` and `parser.py` are embedded
shallowly: Python strings become `String`, Python `None | str | list[str]`
mapping values become `FieldValue`, fallible code returns `Except`, and the
external pattern-matching engine is an abstract function parameter.  The
normalization module and the domain-hint reconciliation step are not part of
the sources and are modelled from the specification where noted.
-/

namespace StructlyWhois

/-- Whitespace characters stripped by Python str.strip (ASCII subset; unicode
whitespace is out of scope for the payloads considered here). -/
def pyWsChar (c : Char) : Bool :=
  c = ' ' || c = '\t' || c = '\n' || c = '\r' || c = '\x0b' || c = '\x0c'

/-- Strip leading and trailing whitespace from a character list. -/
def pyStripC (cs : List Char) : List Char :=
  ((cs.dropWhile pyWsChar).reverse.dropWhile pyWsChar).reverse

/-- Embedding of Python str.strip() with no arguments. -/
def pyStrip (s : String) : String :=
  String.mk (pyStripC s.data)

/-- Embedding of Python str.lower() (ASCII case folding). -/
def pyLower (s : String) : String :=
  String.mk (s.data.map Char.toLower)

/-- Embedding of Python str.upper() (ASCII case folding). -/
def pyUpper (s : String) : String :=
  String.mk (s.data.map Char.toUpper)

/-- Worker for character-level replacement, structurally recursive on a fuel
bound that always dominates the remaining length. -/
def pyReplaceCAux (pat repl : List Char) : Nat → List Char → List Char
  | 0, cs => cs
  | fuel + 1, cs =>
    match cs with
    | [] => []
    | c :: rest =>
      if pat.isPrefixOf (c :: rest) && !pat.isEmpty then
        repl ++ pyReplaceCAux pat repl fuel ((c :: rest).drop pat.length)
      else c :: pyReplaceCAux pat repl fuel rest

/-- Embedding of Python str.replace over characters: replace every leftmost
non-overlapping occurrence of a nonempty pattern. -/
def pyReplaceC (pat repl cs : List Char) : List Char :=
  pyReplaceCAux pat repl cs.length cs

/-- Embedding of Python str.replace (pattern assumed nonempty, as at every
call site). -/
def pyReplace (s pat repl : String) : String :=
  String.mk (pyReplaceC pat.data repl.data s.data)

/-! ## Rate-limit banners (records.py, WHOIS_RATE_LIMIT_MESSAGES) -/

/-- Fixed set of known provider rate-limit/error banners from records.py. -/
def WHOIS_RATE_LIMIT_MESSAGES : List String :=
  [ "WHOIS LIMIT EXCEEDED - SEE WWW.PIR.ORG/WHOIS FOR DETAILS"
  , "Your access is too fast,please try again later."
  , "Your connection limit exceeded."
  , "Number of allowed queries exceeded."
  , "WHOIS LIMIT EXCEEDED"
  , "Requests of this client are not permitted."
  , "Too many connection attempts. Please try again in a few seconds."
  , "We are unable to process your request at this time."
  , "HTTP/1.1 400 Bad Request"
  , "Closing connections because of Timeout"
  , "Access to whois service at whois.isoc.org.il was **DENIED**"
  , "IP Address Has Reached Rate Limit" ]

/-- Embedding of records.is_rate_limited_payload: the stripped payload equals
one of the known banners. -/
def is_rate_limited_payload (raw_text : String) : Bool :=
  WHOIS_RATE_LIMIT_MESSAGES.contains (pyStrip raw_text)

/-! ## Datetime model (records.py fast-path date parsing)

The fast path calls CPython datetime.strptime on a fixed table of formats.
`strptime` below models CPython _strptime for exactly the directives that
occur in that table (%Y %m %d %H %M %S %f %z %b %a plus literals), including
the per-directive regex alternations, their backtracking order, the
IGNORECASE flag on literals, the \s+ treatment of format whitespace and the
datetime-constructor range validation. -/

structure PyDateTime where
  year : Nat := 1900
  month : Nat := 1
  day : Nat := 1
  hour : Nat := 0
  minute : Nat := 0
  second : Nat := 0
  microsecond : Nat := 0
  offSeconds : Option Int := none
  offMicro : Int := 0
deriving DecidableEq

def digitVal (c : Char) : Nat := c.toNat - 48

def natOfDigits (cs : List Char) : Nat :=
  cs.foldl (fun acc c => 10 * acc + digitVal c) 0

/-- Candidate tokens for one strptime directive: pairs of (characters
consumed, field update), listed in the order the regex alternation tries
them. -/
abbrev DirCands := List (Nat × (PyDateTime → PyDateTime))

def candsY (input : List Char) : DirCands :=
  match input with
  | a :: b :: c :: d :: _ =>
    if a.isDigit && b.isDigit && c.isDigit && d.isDigit then
      [(4, fun t => { t with year := natOfDigits [a, b, c, d] })]
    else []
  | _ => []

/-- Regex for %m is 1[0-2]|0[1-9]|[1-9]. -/
def candsMonth (input : List Char) : DirCands :=
  (match input with
   | a :: b :: _ =>
     if a = '1' && b.isDigit && digitVal b ≤ 2 then
       [(2, fun t => { t with month := 10 + digitVal b })]
     else if a = '0' && b.isDigit && digitVal b ≥ 1 then
       [(2, fun t => { t with month := digitVal b })]
     else []
   | _ => []) ++
  (match input with
   | a :: _ =>
     if a.isDigit && digitVal a ≥ 1 then [(1, fun t => { t with month := digitVal a })]
     else []
   | _ => [])

/-- Regex for %d is 3[01]|[12]\d|0[1-9]|[1-9]. -/
def candsDay (input : List Char) : DirCands :=
  (match input with
   | a :: b :: _ =>
     if a = '3' && (b = '0' || b = '1') then
       [(2, fun t => { t with day := 30 + digitVal b })]
     else if (a = '1' || a = '2') && b.isDigit then
       [(2, fun t => { t with day := 10 * digitVal a + digitVal b })]
     else if a = '0' && b.isDigit && digitVal b ≥ 1 then
       [(2, fun t => { t with day := digitVal b })]
     else []
   | _ => []) ++
  (match input with
   | a :: _ =>
     if a.isDigit && digitVal a ≥ 1 then [(1, fun t => { t with day := digitVal a })]
     else []
   | _ => [])

/-- Regex for %H is 2[0-3]|[0-1]\d|\d. -/
def candsHour (input : List Char) : DirCands :=
  (match input with
   | a :: b :: _ =>
     if a = '2' && b.isDigit && digitVal b ≤ 3 then
       [(2, fun t => { t with hour := 20 + digitVal b })]
     else if (a = '0' || a = '1') && b.isDigit then
       [(2, fun t => { t with hour := 10 * digitVal a + digitVal b })]
     else []
   | _ => []) ++
  (match input with
   | a :: _ => if a.isDigit then [(1, fun t => { t with hour := digitVal a })] else []
   | _ => [])

/-- Regex for %M is [0-5]\d|\d. -/
def candsMinute (input : List Char) : DirCands :=
  (match input with
   | a :: b :: _ =>
     if a.isDigit && digitVal a ≤ 5 && b.isDigit then
       [(2, fun t => { t with minute := 10 * digitVal a + digitVal b })]
     else []
   | _ => []) ++
  (match input with
   | a :: _ => if a.isDigit then [(1, fun t => { t with minute := digitVal a })] else []
   | _ => [])

/-- Regex for %S is 6[0-1]|[0-5]\d|\d (leap seconds pass the regex and are
rejected later by the datetime constructor). -/
def candsSecond (input : List Char) : DirCands :=
  (match input with
   | a :: b :: _ =>
     if a = '6' && (b = '0' || b = '1') then
       [(2, fun t => { t with second := 60 + digitVal b })]
     else if a.isDigit && digitVal a ≤ 5 && b.isDigit then
       [(2, fun t => { t with second := 10 * digitVal a + digitVal b })]
     else []
   | _ => []) ++
  (match input with
   | a :: _ => if a.isDigit then [(1, fun t => { t with second := digitVal a })] else []
   | _ => [])

/-- Regex for %f is [0-9]{1,6}, greedy, right-padded to microseconds. -/
def candsFrac (input : List Char) : DirCands :=
  let ds := (input.takeWhile Char.isDigit).take 6
  (List.range ds.length).reverse.map fun i =>
    let k := i + 1
    (k, fun t => { t with microsecond := natOfDigits (ds.take k) * 10 ^ (6 - k) })

def monthAbbrevs : List String :=
  ["jan", "feb", "mar", "apr", "may", "jun", "jul", "aug", "sep", "oct", "nov", "dec"]

def dayAbbrevs : List String :=
  ["mon", "tue", "wed", "thu", "fri", "sat", "sun"]

/-- Regex for %b: locale month abbreviations, case-insensitive. -/
def candsMonthName (input : List Char) : DirCands :=
  let pre := (input.take 3).map Char.toLower
  (monthAbbrevs.enum).filterMap fun p =>
    if pre = p.2.data then some (3, fun t => { t with month := p.1 + 1 }) else none

/-- Regex for %a: locale weekday abbreviations, case-insensitive; the parsed
weekday does not influence the constructed datetime. -/
def candsDayName (input : List Char) : DirCands :=
  let pre := (input.take 3).map Char.toLower
  dayAbbrevs.filterMap fun ab =>
    if pre = ab.data then some ((3 : Nat), fun (t : PyDateTime) => t) else none

def twoDigitsAt (input : List Char) : Option Nat :=
  match input with
  | a :: b :: _ => if a.isDigit && b.isDigit then some (10 * digitVal a + digitVal b) else none
  | _ => none

/-- Regex for %z is [+-]\d\d:?\d\d(:\d\d(\.\d{1,6})?)?|(?-i:Z); the numeric
branch is tried before Z, optional groups are greedy.  The update records the
signed offset for later timezone validation. -/
def candsZone (input : List Char) : DirCands :=
  (match input with
   | s :: rest =>
     if s = '+' || s = '-' then
       match twoDigitsAt rest with
       | none => []
       | some hh =>
         let rest2 := rest.drop 2
         let colonLen : Nat := if rest2.head? = some ':' then 1 else 0
         let rest3 := rest2.drop colonLen
         match twoDigitsAt rest3 with
         | none => []
         | some mm =>
           let base := 3 + colonLen + 2
           let sign : Int := if s = '-' then -1 else 1
           let mk := fun (ss : Nat) (us : Nat) (t : PyDateTime) =>
             { t with offSeconds := some (sign * (hh * 3600 + mm * 60 + ss : Nat)),
                      offMicro := sign * (us : Nat) }
           let after := rest3.drop 2
           let secCands : DirCands :=
             match after with
             | ':' :: a2 =>
               match twoDigitsAt a2 with
               | some ss =>
                 let fracCands : DirCands :=
                   match a2.drop 2 with
                   | '.' :: a3 =>
                     let ds := (a3.takeWhile Char.isDigit).take 6
                     (List.range ds.length).reverse.map fun i =>
                       let k := i + 1
                       (base + 3 + 1 + k, mk ss (natOfDigits (ds.take k) * 10 ^ (6 - k)))
                   | _ => []
                 fracCands ++ [(base + 3, mk ss 0)]
               | none => []
             | _ => []
           secCands ++ [(base, mk 0 0)]
     else []
   | _ => []) ++
  (match input with
   | 'Z' :: _ => [((1 : Nat), fun t => { t with offSeconds := some 0, offMicro := 0 })]
   | _ => [])

def dirCands (c : Char) (input : List Char) : DirCands :=
  match c with
  | 'Y' => candsY input
  | 'm' => candsMonth input
  | 'd' => candsDay input
  | 'H' => candsHour input
  | 'M' => candsMinute input
  | 'S' => candsSecond input
  | 'f' => candsFrac input
  | 'b' => candsMonthName input
  | 'a' => candsDayName input
  | 'z' => candsZone input
  | _ => []

/-- Backtracking matcher for a strptime format against an input, mirroring
the compiled regex: directives try their alternation candidates in order,
whitespace in the format matches one or more whitespace characters, other
literals match case-insensitively, and the whole input must be consumed. -/
def matchFormat (fmt : List Char) (input : List Char) (acc : PyDateTime) :
    Option PyDateTime :=
  match fmt with
  | [] => if input.isEmpty then some acc else none
  | '%' :: c :: fmtRest =>
    (dirCands c input).findSome? fun cand =>
      matchFormat fmtRest (input.drop cand.1) (cand.2 acc)
  | c :: fmtRest =>
    if pyWsChar c then
      match input with
      | [] => none
      | i :: irest =>
        if pyWsChar i then matchFormat fmtRest (irest.dropWhile pyWsChar) acc else none
    else
      match input with
      | [] => none
      | i :: irest =>
        if i.toLower = c.toLower then matchFormat fmtRest irest acc else none

def isLeapYear (y : Nat) : Bool :=
  (y % 4 = 0 && y % 100 ≠ 0) || y % 400 = 0

def daysInMonth (y m : Nat) : Nat :=
  if m = 2 then (if isLeapYear y then 29 else 28)
  else if m = 4 || m = 6 || m = 9 || m = 11 then 30
  else 31

/-- Range checks applied by the datetime constructor after a regex match. -/
def validDateTime (t : PyDateTime) : Bool :=
  1 ≤ t.year && t.year ≤ 9999 && 1 ≤ t.month && t.month ≤ 12 &&
  1 ≤ t.day && t.day ≤ daysInMonth t.year t.month &&
  t.hour ≤ 23 && t.minute ≤ 59 && t.second ≤ 59 &&
  (match t.offSeconds with
   | none => true
   | some off => off.natAbs * 1000000 + t.offMicro.natAbs < 86400 * 1000000)

/-- Embedding of CPython datetime.strptime for the directives used by the
fast-path format table: returns the datetime on a full match that passes
constructor validation, and failure (the ValueError path) otherwise. -/
def strptime (dataString fmt : String) : Option PyDateTime :=
  match matchFormat fmt.data dataString.data {} with
  | some t => if validDateTime t then some t else none
  | none => none

/-! ## Trailing parenthesized timezone annotation (records.py) -/

/-- Locate the match of the regex \s*\(([^)]+)\)\s*$ in a string: returns the
characters before the parenthesized group and the group body.  The body is
nonempty and closed by the final non-whitespace character of the string;
among the valid opening parentheses (those with no closing parenthesis
between them and the final one) the leftmost is taken, as the regex engine
does. -/
def trailingParenSplit (value : String) : Option (List Char × List Char) :=
  let rstripped := (value.data.reverse.dropWhile pyWsChar).reverse
  match rstripped.getLast? with
  | some ')' =>
    let u := rstripped.dropLast
    let afterClose := (u.reverse.takeWhile (· ≠ ')')).reverse
    let tl := afterClose.dropWhile (· ≠ '(')
    match tl with
    | '(' :: b :: brest =>
      some (u.take (u.length - tl.length), b :: brest)
    | _ => none
  | _ => none

/-- Embedding of records._extract_trailing_timezone: the cleaned value is the
prefix before the matched annotation, stripped; no match returns the value
unchanged with no timezone. -/
def _extract_trailing_timezone (value : String) : String × Option String :=
  match trailingParenSplit value with
  | some (pre, body) => (String.mk (pyStripC pre), some (String.mk body))
  | none => (value, none)

/-- Embedding of records._strip_trailing_paren: the regex substitution
removes the matched annotation together with the whitespace run before it. -/
def _strip_trailing_paren (value : String) : String :=
  match trailingParenSplit value with
  | some (pre, _) => String.mk ((pre.reverse.dropWhile pyWsChar).reverse)
  | none => value

/-! ## Fast-path format table (records.py) -/

/-- Embedding of records._strip: value.strip(). -/
def _strip (value : String) : String := pyStrip value

/-- Embedding of records._normalize_iso8601: strip, rewrite a trailing Z to
+00:00, then remove the colon of a trailing +HH:MM style offset. -/
def _normalize_iso8601 (value : String) : String :=
  let cs0 := pyStripC value.data
  let cs :=
    if cs0.getLast? = some 'Z' then cs0.dropLast ++ "+00:00".data
    else cs0
  let n := cs.length
  if n ≥ 6 && (cs.getD (n - 6) ' ' = '+' || cs.getD (n - 6) ' ' = '-') &&
      cs.getD (n - 3) ' ' = ':' then
    String.mk (cs.take (n - 3) ++ cs.drop (n - 2))
  else String.mk cs

/-- Embedding of records._strip_periods, which removes every space. -/
def _strip_periods (value : String) : String :=
  pyReplace value " " ""

/-- Embedding of records._FAST_DATETIME_FORMATS: ordered (format,
pre-normalization transform) pairs. -/
def FAST_DATETIME_FORMATS : List (String × (String → String)) :=
  [ ("%Y-%m-%dT%H:%M:%S.%f%z", _normalize_iso8601)
  , ("%Y-%m-%dT%H:%M:%S%z", _normalize_iso8601)
  , ("%Y-%m-%dT%H:%M:%S", _strip)
  , ("%Y-%m-%d %H:%M:%S.%f", _strip)
  , ("%Y-%m-%d %H:%M:%S", _strip)
  , ("%Y%m%d %H:%M:%S", _strip)
  , ("%Y%m%d", _strip)
  , ("%Y-%m-%d", _strip)
  , ("%Y/%m/%d", _strip)
  , ("%d-%m-%Y", _strip)
  , ("%m.%d.%Y %H:%M:%S", _strip)
  , ("%m.%d.%Y", _strip)
  , ("%d.%m.%Y", _strip)
  , ("%Y.%m.%d.", _strip_periods)
  , ("%Y.%m.%d %H:%M:%S", _strip)
  , ("%d.%m.%Y %H:%M:%S", _strip)
  , ("%d-%b-%Y", _strip)
  , ("%d-%b-%Y %H:%M:%S", _strip)
  , ("%a %b %d %Y", _strip)
  , ("%Y/%m/%d %H:%M:%S", _strip_trailing_paren) ]

/-- Embedding of records._try_fast_datetime_parse: the first table entry
whose transform-then-parse succeeds wins. -/
def _try_fast_datetime_parse (value : String) : Option PyDateTime :=
  FAST_DATETIME_FORMATS.findSome? fun entry => strptime (entry.2 value) entry.1

/-! ## Timezone application (records.py) -/

/-- Offsets looked up for common abbreviations in records._apply_timezone. -/
def tz_offsets : List (String × String) :=
  [("JST", "+09:00"), ("UTC", "+00:00"), ("GMT", "+00:00")]

/-- Parse an offset string with datetime.strptime(formatted, "%z") and return
the signed (seconds, microseconds) pair on success. -/
def parseZOffset (formatted : String) : Option (Int × Int) :=
  match strptime formatted "%z" with
  | some t => t.offSeconds.map fun off => (off, t.offMicro)
  | none => none

/-- Embedding of records._apply_timezone: numeric annotations get a colon
inserted if missing and are parsed as %z; otherwise a small abbreviation
table is consulted; failures leave the value unchanged. -/
def _apply_timezone (value : PyDateTime) (tz : Option String) : PyDateTime :=
  match tz with
  | none => value
  | some t =>
    if t.data.head? = some '+' || t.data.head? = some '-' then
      let formatted :=
        if t.data.contains ':' then t
        else String.mk (t.data.take (t.data.length - 2) ++
          ':' :: t.data.drop (t.data.length - 2))
      match parseZOffset formatted with
      | some off => { value with offSeconds := some off.1, offMicro := off.2 }
      | none => value
    else
      match tz_offsets.lookup (pyUpper t) with
      | some offsetStr =>
        match parseZOffset offsetStr with
        | some off => { value with offSeconds := some off.1, offMicro := off.2 }
        | none => value
      | none => value

/-- Parsed date values: either a structured timestamp or the original
(cleaned) string. -/
inductive ParsedDate where
  | dt (d : PyDateTime)
  | str (s : String)
deriving DecidableEq

/-- Embedding of records.parse_datetime: empty input is returned unchanged;
otherwise the stripped value loses a trailing parenthesized timezone
annotation and every space-period pair, the fast path is tried, and on
failure the cleaned string is returned. -/
def parse_datetime (date_string : String) : ParsedDate :=
  if date_string = "" then .str date_string
  else
    let et := _extract_trailing_timezone (pyStrip date_string)
    let normalized := pyReplace et.1 " ." ""
    if normalized = "" then .str date_string
    else
      match _try_fast_datetime_parse normalized with
      | some fast_parsed => .dt (_apply_timezone fast_parsed et.2)
      | none => .str normalized

/-! ## Field mappings and the closed payload schema (records.py) -/

/-- Values an engine field mapping can hold: Python None, a string, or a
list of strings. -/
inductive FieldValue where
  | null
  | s (v : String)
  | l (vs : List String)
deriving DecidableEq

/-- Engine output mapping from field label to value (Python dict as an
association list with unique keys; lookup takes the first binding). -/
abbrev FieldMap := List (String × FieldValue)

/-- Schema keys of _WhoisPayload that carry Optional[str]. -/
def stringKeys : List String :=
  [ "domain_name", "registrar", "registrar_id", "registrar_url"
  , "creation_date", "updated_date", "expiration_date"
  , "registrant_name", "registrant_organization", "registrant_email", "registrant_telephone"
  , "admin_name", "admin_organization", "admin_email", "admin_telephone"
  , "tech_name", "tech_organization", "tech_email", "tech_telephone"
  , "dnssec", "abuse_email", "abuse_telephone" ]

/-- Schema keys of _WhoisPayload that carry Optional[list[str]]. -/
def listKeys : List String := ["name_servers", "status"]

/-- Validation of one mapping entry against the closed _WhoisPayload schema
(forbid_unknown_fields plus per-field type checks, as msgspec.convert
performs). -/
def checkField (kv : String × FieldValue) : Bool :=
  if listKeys.contains kv.1 then
    match kv.2 with
    | .s _ => false
    | _ => true
  else if stringKeys.contains kv.1 then
    match kv.2 with
    | .l _ => false
    | _ => true
  else false

def lookupStr (m : FieldMap) (k : String) : Option String :=
  match m.lookup k with
  | some (.s v) => some v
  | _ => none

def lookupList (m : FieldMap) (k : String) : Option (List String) :=
  match m.lookup k with
  | some (.l vs) => some vs
  | _ => none

/-- Embedding of records._WhoisPayload: the closed validation schema, every
field optional and defaulting to absent. -/
structure WhoisPayload where
  domain_name : Option String := none
  registrar : Option String := none
  registrar_id : Option String := none
  registrar_url : Option String := none
  creation_date : Option String := none
  updated_date : Option String := none
  expiration_date : Option String := none
  name_servers : Option (List String) := none
  status : Option (List String) := none
  registrant_name : Option String := none
  registrant_organization : Option String := none
  registrant_email : Option String := none
  registrant_telephone : Option String := none
  admin_name : Option String := none
  admin_organization : Option String := none
  admin_email : Option String := none
  admin_telephone : Option String := none
  tech_name : Option String := none
  tech_organization : Option String := none
  tech_email : Option String := none
  tech_telephone : Option String := none
  dnssec : Option String := none
  abuse_email : Option String := none
  abuse_telephone : Option String := none
deriving DecidableEq

/-- Embedding of msgspec.convert(parsed, _WhoisPayload): reject unknown keys
and wrongly shaped values, default missing keys to absent. -/
def convertPayload (m : FieldMap) : Except String WhoisPayload :=
  if m.all checkField then
    .ok
      { domain_name := lookupStr m "domain_name"
      , registrar := lookupStr m "registrar"
      , registrar_id := lookupStr m "registrar_id"
      , registrar_url := lookupStr m "registrar_url"
      , creation_date := lookupStr m "creation_date"
      , updated_date := lookupStr m "updated_date"
      , expiration_date := lookupStr m "expiration_date"
      , name_servers := lookupList m "name_servers"
      , status := lookupList m "status"
      , registrant_name := lookupStr m "registrant_name"
      , registrant_organization := lookupStr m "registrant_organization"
      , registrant_email := lookupStr m "registrant_email"
      , registrant_telephone := lookupStr m "registrant_telephone"
      , admin_name := lookupStr m "admin_name"
      , admin_organization := lookupStr m "admin_organization"
      , admin_email := lookupStr m "admin_email"
      , admin_telephone := lookupStr m "admin_telephone"
      , tech_name := lookupStr m "tech_name"
      , tech_organization := lookupStr m "tech_organization"
      , tech_email := lookupStr m "tech_email"
      , tech_telephone := lookupStr m "tech_telephone"
      , dnssec := lookupStr m "dnssec"
      , abuse_email := lookupStr m "abuse_email"
      , abuse_telephone := lookupStr m "abuse_telephone" }
  else .error "Invalid WHOIS payload"

/-! ## Contacts and the canonical record (records.py) -/

/-- Contact structure shared by the registrant, admin and tech roles (the
Python subtypes are structurally identical and distinguished only by
role). -/
structure Contact where
  organization : Option String := none
  email : Option String := none
  name : Option String := none
  telephone : Option String := none
deriving DecidableEq

structure Abuse where
  email : Option String := none
  telephone : Option String := none
deriving DecidableEq

/-- Embedding of records.WhoisRecord. -/
structure WhoisRecord where
  raw_text : String
  registrant : Contact
  admin : Contact
  tech : Contact
  abuse : Abuse
  statuses : List String := []
  name_servers : List String := []
  domain : Option String := none
  registrar : Option String := none
  registrar_id : Option String := none
  registrar_url : Option String := none
  dnssec : Option String := none
  expires_at : Option ParsedDate := none
  registered_at : Option ParsedDate := none
  updated_at : Option ParsedDate := none
  is_rate_limited : Bool := false
deriving DecidableEq

/-- Embedding of records._lower_if_needed. -/
def _lower_if_needed (value : Option String) (lowercase : Bool) : Option String :=
  match value with
  | none => none
  | some v => if lowercase then some (pyLower v) else some v

/-- Worker loop of records._prepare_list: transform each value, skip those
whose lowercased form was already seen. -/
def prepGo (lowercase : Bool) : List String → List String → List String
  | [], _ => []
  | v :: rest, seen =>
    let transformed := if lowercase then pyLower v else v
    let key := pyLower transformed
    if seen.contains key then prepGo lowercase rest seen
    else transformed :: prepGo lowercase rest (key :: seen)

/-- Embedding of records._prepare_list: falsy input gives the empty list,
falsy entries are filtered, then the worker deduplicates
case-insensitively. -/
def _prepare_list (values : Option (List String)) (lowercase : Bool) : List String :=
  match values with
  | none => []
  | some vs =>
    if vs = [] then []
    else prepGo lowercase (vs.filter (· ≠ "")) []

/-- Embedding of records._parse_date_field. -/
def _parse_date_field (value : Option String) (lowercase : Bool) : Option ParsedDate :=
  match value with
  | none => none
  | some v =>
    if v = "" then none
    else
      match parse_datetime v with
      | .str s => some (.str (if lowercase then pyLower s else s))
      | .dt d => some (.dt d)

/-- Embedding of records._build_contact. -/
def _build_contact (name email organization telephone : Option String)
    (lowercase : Bool) : Contact :=
  { name := _lower_if_needed name lowercase
  , email := _lower_if_needed email lowercase
  , organization := _lower_if_needed organization lowercase
  , telephone := _lower_if_needed telephone lowercase }

/-- Embedding of records.build_whois_record: validate the mapping against
the closed schema (the ValueError path becomes the error value), then
assemble the canonical record. -/
def build_whois_record (raw_text : String) (parsed : FieldMap)
    (lowercase : Bool := false) : Except String WhoisRecord :=
  match convertPayload parsed with
  | .error e => .error e
  | .ok payload =>
    .ok
      { raw_text := raw_text
      , registrant := _build_contact payload.registrant_name payload.registrant_email
          payload.registrant_organization payload.registrant_telephone lowercase
      , admin := _build_contact payload.admin_name payload.admin_email
          payload.admin_organization payload.admin_telephone lowercase
      , tech := _build_contact payload.tech_name payload.tech_email
          payload.tech_organization payload.tech_telephone lowercase
      , abuse :=
          { email := _lower_if_needed payload.abuse_email lowercase
          , telephone := _lower_if_needed payload.abuse_telephone lowercase }
      , statuses := _prepare_list payload.status lowercase
      , name_servers := _prepare_list payload.name_servers lowercase
      , domain := _lower_if_needed payload.domain_name lowercase
      , registrar := _lower_if_needed payload.registrar lowercase
      , registrar_id := _lower_if_needed payload.registrar_id lowercase
      , registrar_url := _lower_if_needed payload.registrar_url lowercase
      , dnssec := _lower_if_needed payload.dnssec lowercase
      , registered_at := _parse_date_field payload.creation_date lowercase
      , updated_at := _parse_date_field payload.updated_date lowercase
      , expires_at := _parse_date_field payload.expiration_date lowercase
      , is_rate_limited := is_rate_limited_payload raw_text }

/-- Record produced for a rate-limited payload: every structured field is
empty or absent and the flag is set. -/
def rateLimitedRecord (raw_text : String) : WhoisRecord :=
  { raw_text := raw_text
  , registrant := {}
  , admin := {}
  , tech := {}
  , abuse := {}
  , is_rate_limited := true }

/-! ## Serialization (records.WhoisRecord.to_dict) -/

/-- Plain nested values produced by msgspec.to_builtins. -/
inductive PyVal where
  | null
  | s (v : String)
  | b (v : Bool)
  | list (vs : List PyVal)
  | dict (fields : List (String × PyVal))

def pad2 (n : Nat) : String :=
  if n < 10 then "0" ++ toString n else toString n

def pad4 (n : Nat) : String :=
  if n < 10 then "000" ++ toString n
  else if n < 100 then "00" ++ toString n
  else if n < 1000 then "0" ++ toString n
  else toString n

def pad6 (n : Nat) : String :=
  let s := toString n
  let k := 6 - s.length
  String.mk (List.replicate k '0') ++ s

/-- ISO-8601 rendering of a datetime, as serialization produces for date
fields (offset shown as +HH:MM, with seconds and microseconds only when
nonzero). -/
def isoformat (t : PyDateTime) : String :=
  let datePart := pad4 t.year ++ "-" ++ pad2 t.month ++ "-" ++ pad2 t.day
  let timePart := pad2 t.hour ++ ":" ++ pad2 t.minute ++ ":" ++ pad2 t.second
  let fracPart := if t.microsecond = 0 then "" else "." ++ pad6 t.microsecond
  let offPart :=
    match t.offSeconds with
    | none => ""
    | some off =>
      let totalUs : Int := off * 1000000 + t.offMicro
      let sign := if totalUs < 0 then "-" else "+"
      let a := totalUs.natAbs
      let us := a % 1000000
      let secs := a / 1000000
      sign ++ pad2 (secs / 3600) ++ ":" ++ pad2 (secs / 60 % 60) ++
        (if secs % 60 = 0 && us = 0 then ""
         else ":" ++ pad2 (secs % 60) ++ (if us = 0 then "" else "." ++ pad6 us)) ++ ""
  datePart ++ "T" ++ timePart ++ fracPart ++ offPart

def optStrVal (v : Option String) : PyVal :=
  match v with
  | none => .null
  | some s => .s s

def parsedDateVal (v : Option ParsedDate) : PyVal :=
  match v with
  | none => .null
  | some (.str s) => .s s
  | some (.dt d) => .s (isoformat d)

def contactDict (c : Contact) : PyVal :=
  .dict
    [ ("organization", optStrVal c.organization)
    , ("email", optStrVal c.email)
    , ("name", optStrVal c.name)
    , ("telephone", optStrVal c.telephone) ]

/-- Embedding of WhoisRecord.to_dict: msgspec.to_builtins over the struct
fields in declaration order, then raw_text popped when not requested. -/
def WhoisRecord.to_dict (r : WhoisRecord) (include_raw_text : Bool := true) :
    List (String × PyVal) :=
  let data : List (String × PyVal) :=
    [ ("raw_text", .s r.raw_text)
    , ("registrant", contactDict r.registrant)
    , ("admin", contactDict r.admin)
    , ("tech", contactDict r.tech)
    , ("abuse", .dict [("email", optStrVal r.abuse.email), ("telephone", optStrVal r.abuse.telephone)])
    , ("statuses", .list (r.statuses.map PyVal.s))
    , ("name_servers", .list (r.name_servers.map PyVal.s))
    , ("domain", optStrVal r.domain)
    , ("registrar", optStrVal r.registrar)
    , ("registrar_id", optStrVal r.registrar_id)
    , ("registrar_url", optStrVal r.registrar_url)
    , ("dnssec", optStrVal r.dnssec)
    , ("expires_at", parsedDateVal r.expires_at)
    , ("registered_at", parsedDateVal r.registered_at)
    , ("updated_at", parsedDateVal r.updated_at)
    , ("is_rate_limited", .b r.is_rate_limited) ]
  if include_raw_text then data
  else data.filter (fun kv => kv.1 ≠ "raw_text")

/-! ## Text normalization

Modelled from the spec: the normalization module of this repository is not
among the provided sources (only its unit tests are), so the operations of
spec section 4.2 are modelled here from the specification text: wrapped-field
collapsing, latest-block isolation keyed on a repeated domain-identifying
line, block-keyed (AFNIC-style) contact reconstruction, and guaranteed
newline termination for nonempty input.  Lines are character lists; a
domain-identifying line is one starting with the Domain Name label. -/

/-- Worker for line splitting: the accumulator holds the current line in
reverse; a newline emits it, the end of input emits a nonempty remainder. -/
def splitLinesGo : List Char → List Char → List (List Char)
  | [], acc => if acc.isEmpty then [] else [acc.reverse]
  | c :: rest, acc =>
    if c = '\n' then acc.reverse :: splitLinesGo rest []
    else splitLinesGo rest (c :: acc)

/-- Split a character sequence into lines as Python str.splitlines does for
newline-separated text: a trailing newline does not produce a final empty
line, and empty input has no lines. -/
def splitLinesC (cs : List Char) : List (List Char) :=
  splitLinesGo cs []

/-- Join lines back into text, each line followed by a newline; no lines
give the empty text. -/
def joinLinesC (ls : List (List Char)) : List Char :=
  ls.foldr (fun l acc => l ++ '\n' :: acc) []

/-- Recognize a line consisting solely of a label and a colon with no value
after the colon: a nonempty colon-free label followed by the final colon. -/
def isLabelOnlyC (l : List Char) : Bool :=
  l.reverse.head? = some ':' && !l.reverse.tail.isEmpty &&
    !l.reverse.tail.contains ':'

/-- Modelled from the spec: wrapped-field collapsing (spec 4.2 step 1).  A
label-only line followed by a non-empty line is merged into a single
label-and-value line and the following line is consumed. -/
def collapseWrappedFields : List (List Char) → List (List Char)
  | [] => []
  | [l] => [l]
  | l :: next :: rest =>
    if isLabelOnlyC l && !next.isEmpty then
      (l ++ ' ' :: next) :: collapseWrappedFields rest
    else
      l :: collapseWrappedFields (next :: rest)

/-- Recognize a domain-identifying line. -/
def isDomainLineC (l : List Char) : Bool :=
  "Domain Name:".data.isPrefixOf l

def countDomainLines (ls : List (List Char)) : Nat :=
  (ls.filter isDomainLineC).length

/-- Drop lines up to the last domain-identifying line (assuming one
exists). -/
def sliceGo : List (List Char) → List (List Char)
  | [] => []
  | l :: rest =>
    if (rest.filter isDomainLineC).length ≥ 1 then sliceGo rest
    else l :: rest

/-- Modelled from the spec: latest-block isolation (spec 4.2 step 2).  When
the domain-identifying line is repeated, the text is restarted from its last
occurrence; with no repetition the text is unchanged, preserving leading
banner-only content. -/
def sliceFromLastDomain (ls : List (List Char)) : List (List Char) :=
  if countDomainLines ls ≥ 2 then sliceGo ls else ls

/-- Role references of the block-keyed contact format: line label and the
role-specific label used for synthetic lines. -/
def afnicRoles : List (List Char × List Char) :=
  [ ("holder-c:".data, "Registrant".data)
  , ("admin-c:".data, "Admin".data)
  , ("tech-c:".data, "Tech".data) ]

/-- Value of a labelled line: the remainder after the label, stripped. -/
def lineValueC (pfx l : List Char) : List Char :=
  pyStripC (l.drop pfx.length)

/-- First line carrying the given label, if any, mapped to its value. -/
def findLabelled (ls : List (List Char)) (pfx : List Char) : Option (List Char) :=
  (ls.find? (fun l => pfx.isPrefixOf l)).map (lineValueC pfx)

/-- Lines of the handle definition block for the given handle id: the lines
after its nic-hdl line up to the next nic-hdl line. -/
def handleBlock (ls : List (List Char)) (id : List Char) : List (List Char) :=
  match ls with
  | [] => []
  | l :: rest =>
    if "nic-hdl:".data.isPrefixOf l && lineValueC "nic-hdl:".data l == id then
      rest.takeWhile (fun x => !("nic-hdl:".data.isPrefixOf x))
    else handleBlock rest id

/-- Modelled from the spec: synthetic label lines for one contact role
(spec 4.2 step 3): the organization name when the handle type is
organization, else the contact name, plus any present email and phone,
under the role-specific label. -/
def buildContactLines (role : List Char) (block : List (List Char)) :
    List (List Char) :=
  match findLabelled block "contact:".data with
  | none => []
  | some c =>
    let nameLine :=
      if findLabelled block "type:".data == some "ORGANIZATION".data then
        role ++ " Organization: ".data ++ c
      else role ++ " Name: ".data ++ c
    nameLine ::
      ((match findLabelled block "e-mail:".data with
        | some e => [role ++ " Email: ".data ++ e]
        | none => []) ++
       (match findLabelled block "phone:".data with
        | some p => [role ++ " Phone: ".data ++ p]
        | none => []))

/-- Modelled from the spec: block-keyed contact reconstruction (spec 4.2
step 3).  For each role reference whose handle block exists, synthetic
contact lines are appended to the text; a handle used for several roles
produces one synthetic line set per role. -/
def injectContacts (ls : List (List Char)) : List (List Char) :=
  ls ++ afnicRoles.flatMap fun rp =>
    match findLabelled ls rp.1 with
    | none => []
    | some id => buildContactLines rp.2 (handleBlock ls id)

/-- Whether any block-keyed contact role reference line is present. -/
def hasContactRefs (ls : List (List Char)) : Bool :=
  afnicRoles.any fun rp => ls.any fun l => rp.1.isPrefixOf l

/-- Modelled from the spec: normalize_raw_text (spec 4.2), applying
wrapped-field collapsing, latest-block isolation and block-keyed contact
reconstruction in order, with newline-terminated output for nonempty
input and empty output for empty input. -/
def normalize_raw_text (raw : String) : String :=
  String.mk (joinLinesC (injectContacts (sliceFromLastDomain
    (collapseWrappedFields (splitLinesC raw.data)))))

/-! ## Parser facade (parser.py) -/

/-- Embedding of parser._normalise_tld: strip whitespace, strip leading
dots, lowercase; falsy input gives the empty string. -/
def _normalise_tld (label : Option String) : String :=
  match label with
  | none => ""
  | some l =>
    if l = "" then ""
    else pyLower (String.mk ((pyStripC l.data).dropWhile (· = '.')))

/-- Worker for dot splitting: unlike line splitting, the final piece is
always emitted, as Python str.split does. -/
def splitDotsGo : List Char → List Char → List (List Char)
  | [], acc => [acc.reverse]
  | c :: rest, acc =>
    if c = '.' then acc.reverse :: splitDotsGo rest []
    else splitDotsGo rest (c :: acc)

/-- Split a character sequence at every dot, as Python str.split does. -/
def splitDotsC (cs : List Char) : List (List Char) :=
  splitDotsGo cs []

/-- Embedding of parser._split_domain: strip whitespace and surrounding
dots, lowercase, split on dots dropping empty segments. -/
def _split_domain (domain : Option String) : List String :=
  match domain with
  | none => []
  | some d =>
    if d = "" then []
    else
      let stripped :=
        ((((pyStripC d.data).dropWhile (· = '.')).reverse.dropWhile (· = '.')).reverse).map
          Char.toLower
      ((splitDotsC stripped).map String.mk).filter (· ≠ "")

/-- Dot-joined candidate suffix, as the Python join of labels. -/
def joinDots : List String → String
  | [] => ""
  | [l] => l
  | l :: rest => l ++ "." ++ joinDots rest

/-- Scan of parser._select_tld over label suffixes: the first candidate,
from most specific to least, registered among the compiled parsers. -/
def scanSuffix (parsers : List String) : List String → Option String
  | [] => none
  | l :: rest =>
    let candidate := joinDots (l :: rest)
    if candidate ∈ parsers then some candidate
    else scanSuffix parsers rest

/-- Embedding of parser.WhoisParser._select_tld: a non-empty normalized
explicit suffix wins; an empty label list gives the empty string; otherwise
the first registered candidate, defaulting to the final label. -/
def _select_tld (parsers : List String) (explicit_tld domain : Option String) :
    String :=
  let target := _normalise_tld explicit_tld
  if target = "" then
    let labels := _split_domain domain
    if labels = [] then ""
    else
      match scanSuffix parsers labels with
      | some c => c
      | none => labels.getLastD ""
  else target

/-- Abstraction of the compiled structly parsers: the set of registered
suffixes plus the external extraction engine in single and batch form, each
taking the selected suffix and normalized text (spec section 6 treats the
engine as an opaque deterministic mapping). -/
structure ParserModel where
  parsers : List String
  engine : String → String → FieldMap
  engineMany : String → List String → List FieldMap

/-- Embedding of parser.WhoisParser.parse: normalize, select the suffix,
run the engine. -/
def parse (P : ParserModel) (raw_text : String)
    (domain tld : Option String) : FieldMap :=
  P.engine (_select_tld P.parsers tld domain) (normalize_raw_text raw_text)

/-- Embedding of parser.WhoisParser.parse_record: rate-limited payloads
short-circuit to a record built from an empty mapping; everything else is
parsed and assembled. -/
def parse_record (P : ParserModel) (raw_text : String)
    (domain tld : Option String) (lowercase : Bool := false) :
    Except String WhoisRecord :=
  if is_rate_limited_payload raw_text then
    build_whois_record raw_text [] lowercase
  else
    build_whois_record raw_text (parse P raw_text domain tld) lowercase

/-- Record assembly loop of parser.WhoisParser.parse_many with to_records:
each (raw, mapping) pair becomes a record, the first failure aborts. -/
def buildMany (lowercase : Bool) :
    List (String × FieldMap) → Except String (List WhoisRecord)
  | [] => .ok []
  | (raw, m) :: rest =>
    match build_whois_record raw m lowercase with
    | .error e => .error e
    | .ok r =>
      match buildMany lowercase rest with
      | .error e => .error e
      | .ok rs => .ok (r :: rs)

/-- Embedding of parser.WhoisParser.parse_many with to_records=true: one
suffix for the whole batch, the engine batch form on the normalized texts,
then records zipped with the original raw payloads. -/
def parse_many_records (P : ParserModel) (payloads : List String)
    (domain tld : Option String) (lowercase : Bool := false) :
    Except String (List WhoisRecord) :=
  let target_tld := _select_tld P.parsers tld domain
  let parsed_payloads := P.engineMany target_tld (payloads.map normalize_raw_text)
  buildMany lowercase (payloads.zip parsed_payloads)

/-! ## Domain-hint reconciliation and batch consistency

Modelled from the spec: the domain-hint reconciliation step and the batch
length check belong to the fuller parser package of this repository, which
is absent from the provided sources (only its tests call it); they are
modelled here from spec sections 4.3, 4.6 and 7. -/

/-- Truthiness of a mapping value under Python rules. -/
def fieldTruthy (v : Option FieldValue) : Bool :=
  match v with
  | some (.s x) => x ≠ ""
  | some (.l xs) => xs ≠ []
  | some .null => false
  | none => false

/-- Replace the binding of a key, or append one when absent. -/
def setField : FieldMap → String → FieldValue → FieldMap
  | [], k, v => [(k, v)]
  | (k2, v2) :: rest, k, v =>
    if k2 = k then (k, v) :: rest
    else (k2, v2) :: setField rest k v

/-- Modelled from the spec: _apply_domain_hint (spec 4.3).  When the caller
supplies a domain and the mapping has no, or an empty, domain value, the
supplied domain is injected; an existing non-empty value is never
overwritten. -/
def apply_domain_hint (parsed : FieldMap) (domain_hint : Option String) :
    FieldMap :=
  match domain_hint with
  | none => parsed
  | some d =>
    if d = "" then parsed
    else if fieldTruthy (parsed.lookup "domain_name") then parsed
    else setField parsed "domain_name" (.s d)

/-- Fatal error raised when the engine batch output size differs from the
input size. -/
inductive BatchError where
  | batchConsistency (expected got : Nat)
deriving DecidableEq

/-- Modelled from the spec: the batch form of the pipeline (spec 4.6 and the
BatchConsistencyError of spec 7).  One suffix is resolved for the whole
batch, the engine batch form runs on the normalized texts, the domain hint
is reconciled per mapping, and a length mismatch is a fatal consistency
error, never a silent truncation or padding. -/
def parse_many_spec (P : ParserModel) (payloads : List String)
    (domain tld : Option String) : Except BatchError (List FieldMap) :=
  let target_tld := _select_tld P.parsers tld domain
  let results := P.engineMany target_tld (payloads.map normalize_raw_text)
  if results.length = payloads.length then
    .ok (results.map fun m => apply_domain_hint m domain)
  else
    .error (.batchConsistency payloads.length results.length)

/-- Modelled from the spec: parse_record of the fuller parser package, which
runs domain-hint reconciliation between extraction and record assembly
(spec 4.3 and 4.6). -/
def parse_record_spec (P : ParserModel) (raw_text : String)
    (domain tld : Option String) (lowercase : Bool := false) :
    Except String WhoisRecord :=
  if is_rate_limited_payload raw_text then
    build_whois_record raw_text [] lowercase
  else
    build_whois_record raw_text
      (apply_domain_hint (parse P raw_text domain tld) domain) lowercase

/-! ## Specification-level list preparation

Definition following the spec words for the list fields (spec 4.5): drop
falsy entries, deduplicate case-insensitively keeping the first occurrence
with its first-seen casing (or the case-folded form when lowercasing),
preserving relative order.  It is compared against the source-derived
_prepare_list. -/

def prepareListSpecGo (lowercase : Bool) (acc : List String) :
    List String → List String
  | [] => acc
  | v :: rest =>
    let entry := if lowercase then pyLower v else v
    if v = "" || acc.any (fun w => pyLower w == pyLower entry) then
      prepareListSpecGo lowercase acc rest
    else prepareListSpecGo lowercase (acc ++ [entry]) rest

/-- Specification wording of list preparation: entries appear in order of
first appearance, in first-seen casing (case-folded when requested), with
falsy entries dropped and case-insensitive duplicates removed. -/
def prepareListSpec (values : Option (List String)) (lowercase : Bool) :
    List String :=
  match values with
  | none => []
  | some vs => prepareListSpecGo lowercase [] vs

/-! ## Claim C1: rate-limit short-circuit of parse_record -/

/-- C1: for every raw payload whose whitespace-trimmed text exactly equals
one of the fixed rate-limit banner strings, parse_record skips normalization
and extraction (the result does not depend on the parser model or engine)
and returns the record with is_rate_limited true and every other structured
field empty or absent: no domain, no statuses, no name servers, no contact
fields, no date fields. -/
theorem rate_limit_short_circuit (P : ParserModel) (raw_text : String)
    (domain tld : Option String) (lowercase : Bool)
    (h : is_rate_limited_payload raw_text = true) :
    parse_record P raw_text domain tld lowercase =
      .ok (rateLimitedRecord raw_text) := by
  unfold parse_record
  rw [h]
  simp only [if_true]
  have hb : build_whois_record raw_text [] lowercase =
      .ok { rateLimitedRecord raw_text with
              is_rate_limited := is_rate_limited_payload raw_text } := rfl
  rw [hb, h]
  rfl

/-- Concrete parser model used by witnesses: an engine that reports a domain
for every payload, so that the short-circuit is observable. -/
def witnessModel : ParserModel :=
  { parsers := ["com"]
  , engine := fun _ _ => [("domain_name", .s "engine.example")]
  , engineMany := fun _ texts => texts.map fun _ => [("domain_name", .s "engine.example")] }

/-- Witness for C1 at the banner from the spec scenario. -/
theorem rate_limit_short_circuit_witness :
    is_rate_limited_payload "WHOIS LIMIT EXCEEDED" = true ∧
    parse_record witnessModel "WHOIS LIMIT EXCEEDED" none none false =
      .ok (rateLimitedRecord "WHOIS LIMIT EXCEEDED") :=
  ⟨by decide, rate_limit_short_circuit witnessModel "WHOIS LIMIT EXCEEDED"
    none none false (by decide)⟩

/-! ## Claim C7: is_rate_limited implies every other field empty -/

/-- Helper: a successful build keeps the raw text and computes the
rate-limit flag from it. -/
theorem build_whois_record_ok_basic (raw_text : String) (parsed : FieldMap)
    (lowercase : Bool) (r : WhoisRecord)
    (h : build_whois_record raw_text parsed lowercase = .ok r) :
    r.raw_text = raw_text ∧ r.is_rate_limited = is_rate_limited_payload raw_text := by
  unfold build_whois_record at h
  cases hc : convertPayload parsed with
  | error e => rw [hc] at h; exact absurd h (by simp)
  | ok p =>
    rw [hc] at h
    injection h with h2
    rw [← h2]
    exact ⟨rfl, rfl⟩

/-- C7 counterexample: build_whois_record itself does not enforce the
invariant; called directly with a rate-limited raw text and a non-empty
mapping (exactly as the repository test suite does) it returns a record with
is_rate_limited true and a populated domain. -/
theorem rate_limit_invariant_cex :
    (build_whois_record "WHOIS LIMIT EXCEEDED" [("domain_name", .s "ABC.XYZ")]
        false).map (fun r => (r.is_rate_limited, r.domain)) =
      .ok (true, some "ABC.XYZ") := rfl

/-- C7 amended: for every record produced by the parse_record pipeline, an
is_rate_limited record is exactly the empty rate-limited record, so every
other structured field is empty or absent. -/
theorem rate_limit_implies_empty (P : ParserModel) (raw_text : String)
    (domain tld : Option String) (lowercase : Bool) (r : WhoisRecord)
    (hok : parse_record P raw_text domain tld lowercase = .ok r)
    (hrl : r.is_rate_limited = true) :
    r = rateLimitedRecord raw_text := by
  by_cases hli : is_rate_limited_payload raw_text = true
  · unfold parse_record at hok
    rw [hli] at hok
    simp only [if_true] at hok
    have hb : build_whois_record raw_text [] lowercase =
        .ok { rateLimitedRecord raw_text with
                is_rate_limited := is_rate_limited_payload raw_text } := rfl
    rw [hb] at hok
    injection hok with h2
    rw [← h2, hli]
    rfl
  · have hli2 : is_rate_limited_payload raw_text = false := by
      simpa using hli
    unfold parse_record at hok
    rw [hli2] at hok
    simp only [Bool.false_eq_true, if_false] at hok
    have hbasic := build_whois_record_ok_basic _ _ _ _ hok
    rw [hbasic.2, hli2] at hrl
    exact absurd hrl (by simp)

/-- Witness for the amended C7 at a concrete rate-limited payload. -/
theorem rate_limit_implies_empty_witness :
    rateLimitedRecord "WHOIS LIMIT EXCEEDED" =
      rateLimitedRecord "WHOIS LIMIT EXCEEDED" :=
  rate_limit_implies_empty witnessModel "WHOIS LIMIT EXCEEDED" none none false
    (rateLimitedRecord "WHOIS LIMIT EXCEEDED") rfl rfl

/-! ## Claim C8: closed-schema validation of the field mapping -/

/-- C8: build_whois_record validates the mapping against the closed schema:
any entry with an unknown key or wrongly shaped value makes it fail with the
invalid-payload error; a mapping with only valid entries always builds (the
validation is the only hard-fail path); and every schema key missing from
the mapping leaves the corresponding record field absent. -/
theorem payload_schema_validation (raw_text : String) (m : FieldMap)
    (lowercase : Bool) :
    ((∃ kv, kv ∈ m ∧ checkField kv = false) →
       build_whois_record raw_text m lowercase = .error "Invalid WHOIS payload")
  ∧ ((∀ kv, kv ∈ m → checkField kv = true) →
       ∃ r, build_whois_record raw_text m lowercase = .ok r)
  ∧ (∀ r, build_whois_record raw_text m lowercase = .ok r →
       (m.lookup "domain_name" = none → r.domain = none) ∧
       (m.lookup "registrar" = none → r.registrar = none) ∧
       (m.lookup "registrar_id" = none → r.registrar_id = none) ∧
       (m.lookup "registrar_url" = none → r.registrar_url = none) ∧
       (m.lookup "dnssec" = none → r.dnssec = none) ∧
       (m.lookup "creation_date" = none → r.registered_at = none) ∧
       (m.lookup "updated_date" = none → r.updated_at = none) ∧
       (m.lookup "expiration_date" = none → r.expires_at = none) ∧
       (m.lookup "status" = none → r.statuses = []) ∧
       (m.lookup "name_servers" = none → r.name_servers = []) ∧
       (m.lookup "registrant_name" = none → r.registrant.name = none) ∧
       (m.lookup "registrant_organization" = none → r.registrant.organization = none) ∧
       (m.lookup "registrant_email" = none → r.registrant.email = none) ∧
       (m.lookup "registrant_telephone" = none → r.registrant.telephone = none) ∧
       (m.lookup "admin_name" = none → r.admin.name = none) ∧
       (m.lookup "admin_organization" = none → r.admin.organization = none) ∧
       (m.lookup "admin_email" = none → r.admin.email = none) ∧
       (m.lookup "admin_telephone" = none → r.admin.telephone = none) ∧
       (m.lookup "tech_name" = none → r.tech.name = none) ∧
       (m.lookup "tech_organization" = none → r.tech.organization = none) ∧
       (m.lookup "tech_email" = none → r.tech.email = none) ∧
       (m.lookup "tech_telephone" = none → r.tech.telephone = none) ∧
       (m.lookup "abuse_email" = none → r.abuse.email = none) ∧
       (m.lookup "abuse_telephone" = none → r.abuse.telephone = none)) := by
  refine ⟨?_, ?_, ?_⟩
  · rintro ⟨kv, hmem, hcf⟩
    have hall : m.all checkField = false := by
      rw [List.all_eq_false]
      exact ⟨kv, hmem, by simp [hcf]⟩
    unfold build_whois_record convertPayload
    rw [hall]
    simp
  · intro hgood
    have hall : m.all checkField = true := List.all_eq_true.mpr hgood
    unfold build_whois_record convertPayload
    rw [hall]
    exact ⟨_, rfl⟩
  · intro r h
    unfold build_whois_record at h
    cases hc : convertPayload m with
    | error e => rw [hc] at h; exact absurd h (by simp)
    | ok p =>
      rw [hc] at h
      injection h with h2
      unfold convertPayload at hc
      by_cases hall : m.all checkField = true
      · rw [hall] at hc
        simp only [if_true] at hc
        injection hc with hp
        subst hp
        subst h2
        refine ⟨?_, ?_, ?_, ?_, ?_, ?_, ?_, ?_, ?_, ?_, ?_, ?_, ?_, ?_, ?_,
          ?_, ?_, ?_, ?_, ?_, ?_, ?_, ?_, ?_⟩ <;>
          (intro hk;
           simp [lookupStr, lookupList, _lower_if_needed, _parse_date_field,
             _prepare_list, _build_contact, hk])
      · simp only [hall, if_false] at hc
        exact absurd hc (by simp)

/-- Witness for C8: a mapping with an unknown key fails with the
invalid-payload error, a valid mapping builds, and a missing schema key
leaves its field absent. -/
theorem payload_schema_validation_witness :
    (build_whois_record "RAW" [("bogus", FieldValue.s "1")] false =
       .error "Invalid WHOIS payload") ∧
    (∃ r, build_whois_record "RAW" [] false = .ok r) ∧
    ({ rateLimitedRecord "RAW" with is_rate_limited := false } : WhoisRecord).domain = none :=
  ⟨(payload_schema_validation "RAW" [("bogus", FieldValue.s "1")] false).1
      ⟨("bogus", FieldValue.s "1"), by simp, rfl⟩,
   (payload_schema_validation "RAW" [] false).2.1
      (by intro kv hkv; exact absurd hkv (List.not_mem_nil kv)),
   ((payload_schema_validation "RAW" [] false).2.2
      { rateLimitedRecord "RAW" with is_rate_limited := false } rfl).1 rfl⟩

/-! ## Claim C3: date fallback safety -/

/-- Cleaned string computed by parse_datetime before the fast path: the
stripped input without a trailing parenthesized timezone annotation and
without space-period pairs. -/
def cleanedDateString (ds : String) : String :=
  pyReplace (_extract_trailing_timezone (pyStrip ds)).1 " ." ""

/-- Helper equation for parse_datetime on nonempty input. -/
theorem parse_datetime_eq (ds : String) (h0 : ds ≠ "") :
    parse_datetime ds =
      (if cleanedDateString ds = "" then .str ds
       else
         match _try_fast_datetime_parse (cleanedDateString ds) with
         | some f => .dt (_apply_timezone f (_extract_trailing_timezone (pyStrip ds)).2)
         | none => .str (cleanedDateString ds)) := by
  unfold parse_datetime cleanedDateString
  rw [if_neg h0]

/-- C3 counterexample: on input " a .b ", which matches no fast-path format
and carries no trailing timezone annotation, parse_datetime returns "ab"
rather than the input unchanged: surrounding whitespace is stripped and the
space-period pair removed. -/
theorem date_fallback_cex :
    parse_datetime " a .b " = ParsedDate.str "ab" ∧ (" a .b " : String) ≠ "ab" :=
  ⟨by decide, by decide⟩

/-- C3 amended: for every input whose cleaned form (whitespace-trimmed,
trailing parenthesized timezone annotation removed, space-period pairs
removed) matches no fast-path format, parse_datetime does not raise: it
returns that cleaned form as a string, or the original input unchanged when
the cleaned form is empty (in particular for empty and all-blank input). -/
theorem date_fallback_safety (ds : String)
    (h : _try_fast_datetime_parse (cleanedDateString ds) = none) :
    parse_datetime ds =
      .str (if cleanedDateString ds = "" then ds else cleanedDateString ds) := by
  by_cases h0 : ds = ""
  · subst h0; decide
  · rw [parse_datetime_eq ds h0]
    by_cases h1 : cleanedDateString ds = ""
    · rw [if_pos h1, if_pos h1]
    · rw [if_neg h1, if_neg h1, h]

/-- Witness for the amended C3 at a concrete undated string with a timezone
annotation. -/
theorem date_fallback_safety_witness :
    _try_fast_datetime_parse (cleanedDateString "mystery date (JST)") = none ∧
    parse_datetime "mystery date (JST)" =
      .str (if cleanedDateString "mystery date (JST)" = ""
            then "mystery date (JST)" else cleanedDateString "mystery date (JST)") :=
  ⟨by decide, date_fallback_safety "mystery date (JST)" (by decide)⟩

/-! ## Claim C4: list fields are deduplicated and order-preserving -/

/-- Helper: lowercasing maps the empty string, and only it, to the empty
string. -/
theorem pyLower_eq_empty_iff (v : String) : pyLower v = "" ↔ v = "" := by
  cases v with
  | mk data => simp [pyLower, String.ext_iff]

/-- Helper: the seen-set worker of _prepare_list agrees with the
specification-level fold whenever the seen set holds exactly the keys of the
accumulated output. -/
theorem prepGo_spec (lc : Bool) (vs : List String) : ∀ (acc seen : List String),
    (∀ k, seen.contains k = acc.any (fun w => pyLower w == k)) →
    acc ++ prepGo lc (vs.filter (· ≠ "")) seen = prepareListSpecGo lc acc vs := by
  induction vs with
  | nil => intro acc seen _; simp [prepGo, prepareListSpecGo]
  | cons v rest ih =>
    intro acc seen hinv
    by_cases hv : v = ""
    · subst hv
      have hfilter : ("" :: rest).filter (· ≠ "") = rest.filter (· ≠ "") := by simp
      rw [hfilter]
      simp only [prepareListSpecGo]
      rw [if_pos (by simp)]
      exact ih acc seen hinv
    · have hfilter : (v :: rest).filter (· ≠ "") = v :: rest.filter (· ≠ "") := by
        simp [List.filter_cons, hv]
      rw [hfilter]
      simp only [prepareListSpecGo, prepGo]
      set t := if lc then pyLower v else v with ht
      by_cases hseen : seen.contains (pyLower t) = true
      · have hcond : (decide (v = "") || acc.any fun w => pyLower w == pyLower t) = true := by
          rw [hinv (pyLower t)] at hseen
          simp [hseen]
        rw [if_pos hseen, if_pos hcond]
        exact ih acc seen hinv
      · have hcond : ¬ ((decide (v = "") || acc.any fun w => pyLower w == pyLower t) = true) := by
          rw [hinv (pyLower t)] at hseen
          simp [hseen, hv]
        rw [if_neg hseen, if_neg hcond]
        rw [show acc ++ t :: prepGo lc (rest.filter (· ≠ "")) (pyLower t :: seen) =
          (acc ++ [t]) ++ prepGo lc (rest.filter (· ≠ "")) (pyLower t :: seen) by simp]
        apply ih
        intro k
        simp only [List.contains_cons, List.any_append, List.any_cons, List.any_nil,
          hinv k, Bool.or_false]
        rw [Bool.or_comm]
        congr 1
        simp [beq_iff_eq, eq_comm]

/-- Helper: elements emitted by the worker have unseen keys, are nonempty
when the input entries are, and are pairwise case-insensitively distinct. -/
theorem prepGo_props (lc : Bool) (vs : List String) : ∀ (seen : List String),
    (∀ x ∈ prepGo lc vs seen, seen.contains (pyLower x) = false) ∧
    ((∀ v ∈ vs, v ≠ "") → "" ∉ prepGo lc vs seen) ∧
    List.Pairwise (fun a b => pyLower a ≠ pyLower b) (prepGo lc vs seen) := by
  induction vs with
  | nil => intro seen; simp [prepGo]
  | cons v rest ih =>
    intro seen
    simp only [prepGo]
    set t := if lc then pyLower v else v with ht
    by_cases hseen : seen.contains (pyLower t) = true
    · rw [if_pos hseen]
      obtain ⟨ihm, ihe, ihp⟩ := ih seen
      exact ⟨ihm, fun hne => ihe (fun w hw => hne w (List.mem_cons_of_mem v hw)), ihp⟩
    · rw [if_neg hseen]
      obtain ⟨ihm, ihe, ihp⟩ := ih (pyLower t :: seen)
      refine ⟨?_, ?_, ?_⟩
      · intro x hx
        rcases List.mem_cons.mp hx with hx1 | hx2
        · subst hx1
          simpa using hseen
        · have := ihm x hx2
          simp only [List.contains_cons, Bool.or_eq_false_iff] at this
          exact this.2
      · intro hne
        intro habs
        rcases List.mem_cons.mp habs with hx1 | hx2
        · have hv : v ≠ "" := hne v (List.mem_cons_self v rest)
          rw [ht] at hx1
          by_cases hlc : lc = true
          · rw [if_pos hlc] at hx1
            exact hv ((pyLower_eq_empty_iff v).mp hx1.symm)
          · rw [if_neg hlc] at hx1
            exact hv hx1.symm
        · exact ihe (fun w hw => hne w (List.mem_cons_of_mem v hw)) hx2
      · refine List.Pairwise.cons ?_ ihp
        intro b hb
        have := ihm b hb
        simp only [List.contains_cons, Bool.or_eq_false_iff] at this
        intro habs
        have h2 := this.1
        rw [habs] at h2
        simp at h2

/-- Refinement: the source _prepare_list equals the specification-level
first-appearance deduplication. -/
theorem _prepare_list_eq_spec (values : Option (List String)) (lc : Bool) :
    _prepare_list values lc = prepareListSpec values lc := by
  cases values with
  | none => rfl
  | some vs =>
    by_cases h : vs = []
    · subst h; rfl
    · have h1 : _prepare_list (some vs) lc = prepGo lc (vs.filter (· ≠ "")) [] := by
        simp [_prepare_list, h]
      have h2 : prepareListSpec (some vs) lc = prepareListSpecGo lc [] vs := rfl
      rw [h1, h2]
      have := prepGo_spec lc vs [] [] (fun k => rfl)
      simpa using this

/-- Properties of _prepare_list output: no empty entry, no case-insensitive
duplicates. -/
theorem _prepare_list_props (values : Option (List String)) (lc : Bool) :
    "" ∉ _prepare_list values lc ∧
    List.Pairwise (fun a b => pyLower a ≠ pyLower b) (_prepare_list values lc) := by
  cases values with
  | none => simp [_prepare_list]
  | some vs =>
    by_cases h : vs = []
    · subst h; simp [_prepare_list]
    · have h1 : _prepare_list (some vs) lc = prepGo lc (vs.filter (· ≠ "")) [] := by
        simp [_prepare_list, h]
      rw [h1]
      obtain ⟨hm, he, hp⟩ := prepGo_props lc (vs.filter (· ≠ "")) []
      refine ⟨he ?_, hp⟩
      intro w hw
      have := (List.mem_filter.mp hw).2
      simpa using this

/-- Helper: a successful build derives its list fields from _prepare_list on
the mapping entries. -/
theorem build_ok_lists (raw_text : String) (m : FieldMap) (lc : Bool)
    (r : WhoisRecord) (h : build_whois_record raw_text m lc = .ok r) :
    r.statuses = _prepare_list (lookupList m "status") lc ∧
    r.name_servers = _prepare_list (lookupList m "name_servers") lc := by
  unfold build_whois_record at h
  cases hc : convertPayload m with
  | error e => rw [hc] at h; exact absurd h (by simp)
  | ok p =>
    rw [hc] at h
    injection h with h2
    unfold convertPayload at hc
    by_cases hall : m.all checkField = true
    · rw [hall] at hc
      simp only [if_true] at hc
      injection hc with hp
      subst hp
      subst h2
      exact ⟨rfl, rfl⟩
    · simp only [hall, if_false] at hc
      exact absurd hc (by simp)

/-- C4: every record built from a mapping has statuses and name_servers with
no empty entries and no case-insensitive duplicates, and each equals the
specification-level deduplication of its input entries: order of first
appearance with first-seen casing, case-folded when lowercasing. -/
theorem list_fields_dedup (raw_text : String) (m : FieldMap) (lc : Bool)
    (r : WhoisRecord) (h : build_whois_record raw_text m lc = .ok r) :
    ("" ∉ r.statuses ∧ List.Pairwise (fun a b => pyLower a ≠ pyLower b) r.statuses ∧
       r.statuses = prepareListSpec (lookupList m "status") lc) ∧
    ("" ∉ r.name_servers ∧
       List.Pairwise (fun a b => pyLower a ≠ pyLower b) r.name_servers ∧
       r.name_servers = prepareListSpec (lookupList m "name_servers") lc) := by
  obtain ⟨hs, hn⟩ := build_ok_lists raw_text m lc r h
  rw [hs, hn]
  obtain ⟨he1, hp1⟩ := _prepare_list_props (lookupList m "status") lc
  obtain ⟨he2, hp2⟩ := _prepare_list_props (lookupList m "name_servers") lc
  exact ⟨⟨he1, hp1, _prepare_list_eq_spec _ _⟩, ⟨he2, hp2, _prepare_list_eq_spec _ _⟩⟩

/-- Mapping with duplicate and empty list entries used by the C4 witness. -/
def c4map : FieldMap :=
  [("status", .l ["Active", "ACTIVE", "", "Hold"]),
   ("name_servers", .l ["NS1.X.COM", "ns1.x.com"])]

/-- Record produced from c4map without lowercasing. -/
def c4rec : WhoisRecord :=
  { raw_text := "RAW", registrant := {}, admin := {}, tech := {}, abuse := {}
  , statuses := ["Active", "Hold"], name_servers := ["NS1.X.COM"] }

/-- Witness for C4: concrete duplicated input deduplicates keeping the first
casing in order. -/
theorem list_fields_dedup_witness :
    ("" ∉ c4rec.statuses ∧
       List.Pairwise (fun a b => pyLower a ≠ pyLower b) c4rec.statuses ∧
       c4rec.statuses = prepareListSpec (lookupList c4map "status") false) ∧
    ("" ∉ c4rec.name_servers ∧
       List.Pairwise (fun a b => pyLower a ≠ pyLower b) c4rec.name_servers ∧
       c4rec.name_servers = prepareListSpec (lookupList c4map "name_servers") false) :=
  list_fields_dedup "RAW" c4map false c4rec rfl

/-! ## Claim C5: suffix resolution -/

/-- Helper: the suffix scan returns the first registered candidate, from
most specific to least. -/
theorem scanSuffix_first (parsers : List String) (labels : List String) :
    ∀ i, i < labels.length →
    (∀ j, j < i → joinDots (labels.drop j) ∉ parsers) →
    joinDots (labels.drop i) ∈ parsers →
    scanSuffix parsers labels = some (joinDots (labels.drop i)) := by
  induction labels with
  | nil => intro i hi; exact absurd hi (by simp)
  | cons l rest ih =>
    intro i hi hnone hmem
    cases i with
    | zero =>
      simp only [List.drop_zero] at hmem ⊢
      simp only [scanSuffix]
      rw [if_pos hmem]
    | succ i2 =>
      have hj0 : joinDots (l :: rest) ∉ parsers := by
        have := hnone 0 (Nat.succ_pos i2)
        simpa using this
      simp only [scanSuffix]
      rw [if_neg hj0]
      have hdrop : ∀ j, ((l :: rest).drop (j + 1)) = rest.drop j := by
        intro j; simp
      rw [hdrop i2] at hmem
      have := ih i2 (by simpa using hi) (fun j hj => by
        have := hnone (j + 1) (by omega)
        rwa [hdrop j] at this) hmem
      rw [this, hdrop i2]

/-- Helper: with no registered candidate the scan fails. -/
theorem scanSuffix_none (parsers : List String) (labels : List String) :
    (∀ i, i < labels.length → joinDots (labels.drop i) ∉ parsers) →
    scanSuffix parsers labels = none := by
  induction labels with
  | nil => intro _; rfl
  | cons l rest ih =>
    intro hnone
    have hj0 : joinDots (l :: rest) ∉ parsers := by
      have := hnone 0 (Nat.succ_pos rest.length)
      simpa using this
    simp only [scanSuffix]
    rw [if_neg hj0]
    exact ih (fun j hj => by
      have := hnone (j + 1) (by simpa using hj)
      simpa using this)

/-- C5: suffix resolution prefers a non-empty normalized explicit suffix;
otherwise an empty label split resolves to the empty string; otherwise the
first registered candidate taking labels from position i to the end for
increasing i wins; and with no registered candidate the final label is
returned. -/
theorem select_tld_resolution (parsers : List String) (tld domain : Option String) :
    (_normalise_tld tld ≠ "" → _select_tld parsers tld domain = _normalise_tld tld)
  ∧ (_normalise_tld tld = "" → _split_domain domain = [] →
       _select_tld parsers tld domain = "")
  ∧ (_normalise_tld tld = "" → ∀ i, i < (_split_domain domain).length →
       (∀ j, j < i → joinDots ((_split_domain domain).drop j) ∉ parsers) →
       joinDots ((_split_domain domain).drop i) ∈ parsers →
       _select_tld parsers tld domain = joinDots ((_split_domain domain).drop i))
  ∧ (_normalise_tld tld = "" →
       (∀ i, i < (_split_domain domain).length →
          joinDots ((_split_domain domain).drop i) ∉ parsers) →
       _select_tld parsers tld domain = (_split_domain domain).getLastD "") := by
  refine ⟨?_, ?_, ?_, ?_⟩
  · intro h
    unfold _select_tld
    rw [if_neg h]
  · intro h hlab
    unfold _select_tld
    rw [if_pos h, hlab]
    rfl
  · intro h i hi hnone hmem
    unfold _select_tld
    rw [if_pos h]
    have hne : _split_domain domain ≠ [] := by
      intro habs; rw [habs] at hi; exact absurd hi (by simp)
    rw [if_neg hne, scanSuffix_first parsers _ i hi hnone hmem]
  · intro h hnone
    unfold _select_tld
    rw [if_pos h]
    by_cases hne : _split_domain domain = []
    · rw [if_pos hne, hne]
      rfl
    · rw [if_neg hne, scanSuffix_none parsers _ hnone]

/-- Witness for C5 at the spec example: registered suffixes uk and co.uk,
domain a.b.co.uk, the more specific co.uk wins. -/
theorem select_tld_resolution_witness :
    _select_tld ["uk", "co.uk"] none (some "a.b.co.uk") = "co.uk" := by
  have h := (select_tld_resolution ["uk", "co.uk"] none (some "a.b.co.uk")).2.2.1
    rfl 2 (by decide) (by decide) (by decide)
  simpa using h

/-! ## Claim C6: domain-hint reconciliation -/

/-- Helper: looking up the key just set finds the new value. -/
theorem setField_lookup_self (m : FieldMap) (k : String) (v : FieldValue) :
    (setField m k v).lookup k = some v := by
  induction m with
  | nil => simp [setField, List.lookup]
  | cons kv rest ih =>
    rcases kv with ⟨k2, v2⟩
    simp only [setField]
    by_cases h : k2 = k
    · rw [if_pos h]
      simp [List.lookup]
    · rw [if_neg h]
      simp only [List.lookup]
      have : (k == k2) = false := by
        simp [Ne.symm h]
      rw [this]
      exact ih

/-- Helper: a successful build derives the domain field from the mapping's
domain_name entry. -/
theorem build_ok_domain (raw_text : String) (m : FieldMap) (lc : Bool)
    (r : WhoisRecord) (h : build_whois_record raw_text m lc = .ok r) :
    r.domain = _lower_if_needed (lookupStr m "domain_name") lc := by
  unfold build_whois_record at h
  cases hc : convertPayload m with
  | error e => rw [hc] at h; exact absurd h (by simp)
  | ok p =>
    rw [hc] at h
    injection h with h2
    unfold convertPayload at hc
    by_cases hall : m.all checkField = true
    · rw [hall] at hc
      simp only [if_true] at hc
      injection hc with hp
      subst hp
      subst h2
      rfl
    · simp only [hall, if_false] at hc
      exact absurd hc (by simp)

/-- C6: modelled pipeline with domain-hint reconciliation.  When the caller
supplies a (non-empty) domain and the engine mapping has no, or an empty,
domain value, the record carries the supplied domain; when the mapping has a
non-empty domain value, that value is kept and never overwritten by the
hint. -/
theorem domain_hint_reconciliation (P : ParserModel) (raw_text : String)
    (dom : String) (tld : Option String) (lc : Bool) (r : WhoisRecord)
    (hnotrl : is_rate_limited_payload raw_text = false)
    (hdom : dom ≠ "") :
    (fieldTruthy ((parse P raw_text (some dom) tld).lookup "domain_name") = false →
      parse_record_spec P raw_text (some dom) tld lc = .ok r →
      r.domain = _lower_if_needed (some dom) lc)
  ∧ (∀ v, v ≠ "" →
      (parse P raw_text (some dom) tld).lookup "domain_name" = some (.s v) →
      parse_record_spec P raw_text (some dom) tld lc = .ok r →
      r.domain = _lower_if_needed (some v) lc) := by
  constructor
  · intro htruthy hok
    unfold parse_record_spec at hok
    rw [hnotrl] at hok
    simp only [Bool.false_eq_true, if_false] at hok
    have hstep : apply_domain_hint (parse P raw_text (some dom) tld) (some dom) =
        (if dom = "" then parse P raw_text (some dom) tld
         else if fieldTruthy ((parse P raw_text (some dom) tld).lookup "domain_name") = true
         then parse P raw_text (some dom) tld
         else setField (parse P raw_text (some dom) tld) "domain_name" (.s dom)) := rfl
    have happly : apply_domain_hint (parse P raw_text (some dom) tld) (some dom) =
        setField (parse P raw_text (some dom) tld) "domain_name" (.s dom) := by
      rw [hstep, if_neg hdom, if_neg (by rw [htruthy]; simp)]
    rw [happly] at hok
    have hd := build_ok_domain _ _ _ _ hok
    rw [hd]
    unfold lookupStr
    rw [setField_lookup_self]
  · intro v hv hlook hok
    unfold parse_record_spec at hok
    rw [hnotrl] at hok
    simp only [Bool.false_eq_true, if_false] at hok
    have htruthy : fieldTruthy ((parse P raw_text (some dom) tld).lookup "domain_name") = true := by
      rw [hlook]
      simpa [fieldTruthy] using hv
    have hstep : apply_domain_hint (parse P raw_text (some dom) tld) (some dom) =
        (if dom = "" then parse P raw_text (some dom) tld
         else if fieldTruthy ((parse P raw_text (some dom) tld).lookup "domain_name") = true
         then parse P raw_text (some dom) tld
         else setField (parse P raw_text (some dom) tld) "domain_name" (.s dom)) := rfl
    have happly : apply_domain_hint (parse P raw_text (some dom) tld) (some dom) =
        parse P raw_text (some dom) tld := by
      rw [hstep, if_neg hdom, if_pos htruthy]
    rw [happly] at hok
    have hd := build_ok_domain _ _ _ _ hok
    rw [hd]
    unfold lookupStr
    rw [hlook]

/-- Engine returning no fields, for the C6 witness injection case. -/
def c6model : ParserModel :=
  { parsers := [], engine := fun _ _ => [], engineMany := fun _ texts => texts.map fun _ => [] }

/-- Engine returning a non-empty domain, for the C6 witness no-overwrite
case. -/
def c6modelB : ParserModel :=
  { parsers := []
  , engine := fun _ _ => [("domain_name", .s "actual.info")]
  , engineMany := fun _ texts => texts.map fun _ => [("domain_name", .s "actual.info")] }

/-- Record produced with the hint injected. -/
def c6rec : WhoisRecord :=
  { raw_text := "some payload", registrant := {}, admin := {}, tech := {}, abuse := {}
  , domain := some "example.info" }

/-- Record produced with the engine's own domain kept. -/
def c6recB : WhoisRecord :=
  { raw_text := "some payload", registrant := {}, admin := {}, tech := {}, abuse := {}
  , domain := some "actual.info" }

/-- Witness for C6: with an empty engine mapping the hint example.info is
injected; with an engine domain actual.info the hint does not overwrite. -/
theorem domain_hint_reconciliation_witness :
    c6rec.domain = some "example.info" ∧ c6recB.domain = some "actual.info" :=
  ⟨(domain_hint_reconciliation c6model "some payload" "example.info" none false c6rec
      (by decide) (by decide)).1 rfl rfl,
   (domain_hint_reconciliation c6modelB "some payload" "example.info" none false c6recB
      (by decide) (by decide)).2 "actual.info" (by decide) rfl rfl⟩

/-! ## Claim C10: raw_text preservation and serialization -/

/-- Helper: a successful batch build yields one record per pair, each
keeping its raw payload. -/
theorem buildMany_ok (lc : Bool) : ∀ (pairs : List (String × FieldMap))
    (rs : List WhoisRecord), buildMany lc pairs = .ok rs →
    rs.length = pairs.length ∧
    ∀ i (h1 : i < rs.length) (h2 : i < pairs.length),
      (rs.get ⟨i, h1⟩).raw_text = (pairs.get ⟨i, h2⟩).1 := by
  intro pairs
  induction pairs with
  | nil =>
    intro rs h
    simp only [buildMany] at h
    injection h with h2
    subst h2
    exact ⟨rfl, by intro i h1; simp at h1⟩
  | cons pr rest ih =>
    intro rs h
    rcases pr with ⟨raw, m⟩
    simp only [buildMany] at h
    cases hb : build_whois_record raw m lc with
    | error e => rw [hb] at h; exact absurd h (by simp)
    | ok r =>
      rw [hb] at h
      cases hrest : buildMany lc rest with
      | error e => rw [hrest] at h; exact absurd h (by simp)
      | ok rs2 =>
        rw [hrest] at h
        injection h with h2
        subst h2
        obtain ⟨ihlen, ihget⟩ := ih rs2 hrest
        constructor
        · simp [ihlen]
        · intro i h1 h2
          cases i with
          | zero =>
            have := (build_whois_record_ok_basic raw m lc r hb).1
            simpa using this
          | succ i2 =>
            have h1b : i2 < rs2.length := by simpa using h1
            have h2b : i2 < rest.length := by simpa using h2
            have := ihget i2 h1b h2b
            simpa using this

/-- C10: every record from parse_record, and the record at each index from
parse_many with records requested, carries raw_text equal to the original
un-normalized payload (the engine itself only ever sees normalized text, as
the definitions feed it normalize_raw_text); serialization includes raw_text
unless include_raw_text is false, in which case the key is absent. -/
theorem raw_text_preservation :
    (∀ (P : ParserModel) (raw_text : String) (domain tld : Option String)
       (lc : Bool) (r : WhoisRecord),
       parse_record P raw_text domain tld lc = .ok r → r.raw_text = raw_text)
  ∧ (∀ (P : ParserModel) (payloads : List String) (domain tld : Option String)
       (lc : Bool) (rs : List WhoisRecord),
       parse_many_records P payloads domain tld lc = .ok rs →
       ∀ i (h1 : i < rs.length) (h2 : i < payloads.length),
         (rs.get ⟨i, h1⟩).raw_text = payloads.get ⟨i, h2⟩)
  ∧ (∀ r : WhoisRecord,
       (WhoisRecord.to_dict r true).lookup "raw_text" = some (.s r.raw_text) ∧
       (WhoisRecord.to_dict r false).lookup "raw_text" = none) := by
  refine ⟨?_, ?_, ?_⟩
  · intro P raw_text domain tld lc r h
    unfold parse_record at h
    by_cases hrl : is_rate_limited_payload raw_text = true
    · rw [hrl] at h
      simp only [if_true] at h
      exact (build_whois_record_ok_basic _ _ _ _ h).1
    · have hrl2 : is_rate_limited_payload raw_text = false := by simpa using hrl
      rw [hrl2] at h
      simp only [Bool.false_eq_true, if_false] at h
      exact (build_whois_record_ok_basic _ _ _ _ h).1
  · intro P payloads domain tld lc rs h
    intro i h1 h2
    unfold parse_many_records at h
    obtain ⟨hlen, hget⟩ := buildMany_ok lc _ rs h
    have hzip : i < (payloads.zip (P.engineMany (_select_tld P.parsers tld domain)
        (payloads.map normalize_raw_text))).length := by
      rw [← hlen]; exact h1
    have := hget i h1 hzip
    rw [this]
    simp [List.get_eq_getElem, List.getElem_zip]
  · intro r
    exact ⟨rfl, rfl⟩

/-- Record parse_record produces from the witness engine on payload
hello. -/
def c10rec : WhoisRecord :=
  { raw_text := "hello", registrant := {}, admin := {}, tech := {}, abuse := {}
  , domain := some "engine.example" }

/-- First record of the witness batch. -/
def c10recA : WhoisRecord :=
  { raw_text := "a", registrant := {}, admin := {}, tech := {}, abuse := {}
  , domain := some "engine.example" }

/-- Second record of the witness batch. -/
def c10recB : WhoisRecord :=
  { raw_text := "b", registrant := {}, admin := {}, tech := {}, abuse := {}
  , domain := some "engine.example" }

/-- Witness for C10 at a concrete single parse, a concrete batch, and a
concrete serialization. -/
theorem raw_text_preservation_witness :
    c10rec.raw_text = "hello" ∧
    (([c10recA, c10recB] : List WhoisRecord).get ⟨0, by simp⟩).raw_text =
      ((["a", "b"] : List String).get ⟨0, by simp⟩) ∧
    (WhoisRecord.to_dict c10rec true).lookup "raw_text" = some (.s c10rec.raw_text) ∧
    (WhoisRecord.to_dict c10rec false).lookup "raw_text" = none :=
  ⟨raw_text_preservation.1 witnessModel "hello" none none false c10rec rfl,
   raw_text_preservation.2.1 witnessModel ["a", "b"] none none false
     [c10recA, c10recB] rfl 0 (by simp) (by simp),
   raw_text_preservation.2.2 c10rec⟩

/-! ## Claim C2: batch length consistency -/

/-- C2: for every batch, when the engine batch output has the input's
length the modelled parse_many succeeds with exactly one output per input,
element i derived from engine result i (hint-reconciled); when the lengths
differ it fails with the fatal batch-consistency error and never silently
truncates or pads. -/
theorem batch_consistency (P : ParserModel) (payloads : List String)
    (domain tld : Option String) :
    (((P.engineMany (_select_tld P.parsers tld domain)
        (payloads.map normalize_raw_text)).length = payloads.length) →
       ∃ out, parse_many_spec P payloads domain tld = .ok out ∧
         out.length = payloads.length ∧
         ∀ i (h1 : i < out.length)
           (h2 : i < (P.engineMany (_select_tld P.parsers tld domain)
               (payloads.map normalize_raw_text)).length),
           out.get ⟨i, h1⟩ = apply_domain_hint
             ((P.engineMany (_select_tld P.parsers tld domain)
                 (payloads.map normalize_raw_text)).get ⟨i, h2⟩) domain)
  ∧ (((P.engineMany (_select_tld P.parsers tld domain)
        (payloads.map normalize_raw_text)).length ≠ payloads.length) →
       parse_many_spec P payloads domain tld =
         .error (.batchConsistency payloads.length
           (P.engineMany (_select_tld P.parsers tld domain)
             (payloads.map normalize_raw_text)).length)) := by
  constructor
  · intro hlen
    refine ⟨(P.engineMany (_select_tld P.parsers tld domain)
        (payloads.map normalize_raw_text)).map
          (fun m => apply_domain_hint m domain), ?_, ?_, ?_⟩
    · unfold parse_many_spec
      rw [if_pos hlen]
    · simp [hlen]
    · intro i h1 h2
      simp [List.get_eq_getElem, List.getElem_map]
  · intro hlen
    unfold parse_many_spec
    rw [if_neg hlen]

/-- Engine whose batch form returns no results, violating the length
contract. -/
def c2bad : ParserModel :=
  { parsers := [], engine := fun _ _ => [], engineMany := fun _ _ => [] }

/-- Witness for C2: a one-payload batch against the empty-output engine
raises the consistency error; against a well-behaved engine it returns one
mapping per payload. -/
theorem batch_consistency_witness :
    (parse_many_spec c2bad ["x"] none none =
       .error (.batchConsistency 1 0)) ∧
    (∃ out, parse_many_spec c6model ["x"] none none = .ok out ∧
       out.length = (["x"] : List String).length ∧
       ∀ i (h1 : i < out.length)
         (h2 : i < (c6model.engineMany (_select_tld c6model.parsers none none)
             ((["x"] : List String).map normalize_raw_text)).length),
         out.get ⟨i, h1⟩ = apply_domain_hint
           ((c6model.engineMany (_select_tld c6model.parsers none none)
               ((["x"] : List String).map normalize_raw_text)).get ⟨i, h2⟩) none) :=
  ⟨(batch_consistency c2bad ["x"] none none).2 (by decide),
   (batch_consistency c6model ["x"] none none).1 (by decide)⟩

/-! ## Claim C9: normalization idempotence -/

/-- Helper: the line splitter consumes a newline-free prefix into its
accumulator. -/
theorem splitLinesGo_append_line (l : List Char) :
    ∀ (cs acc : List Char), (∀ c ∈ l, c ≠ '\n') →
    splitLinesGo (l ++ cs) acc = splitLinesGo cs (l.reverse ++ acc) := by
  induction l with
  | nil => intro cs acc _; simp
  | cons c lrest ih =>
    intro cs acc hnl
    have hc : c ≠ '\n' := hnl c (List.mem_cons_self c lrest)
    simp only [List.cons_append, splitLinesGo]
    rw [if_neg hc]
    simp only [List.append_eq]
    rw [ih cs (c :: acc) (fun x hx => hnl x (List.mem_cons_of_mem c hx))]
    simp

/-- Helper: splitting inverts joining for newline-free lines. -/
theorem splitLinesC_joinLinesC (ls : List (List Char))
    (hnl : ∀ l ∈ ls, ∀ c ∈ l, c ≠ '\n') :
    splitLinesC (joinLinesC ls) = ls := by
  induction ls with
  | nil => rfl
  | cons l rest ih =>
    have hjoin : joinLinesC (l :: rest) = l ++ '\n' :: joinLinesC rest := rfl
    rw [hjoin]
    unfold splitLinesC
    rw [splitLinesGo_append_line l ('\n' :: joinLinesC rest) []
      (hnl l (List.mem_cons_self l rest))]
    simp only [splitLinesGo, if_pos rfl, List.append_nil, List.reverse_reverse, if_true]
    have ihx := ih (fun x hx c hc => hnl x (List.mem_cons_of_mem l hx) c hc)
    unfold splitLinesC at ihx
    simp [ihx]

/-- Helper: lines produced by the splitter contain no newline. -/
theorem splitLinesGo_no_newline : ∀ (cs acc : List Char),
    (∀ c ∈ acc, c ≠ '\n') →
    ∀ l ∈ splitLinesGo cs acc, ∀ c ∈ l, c ≠ '\n' := by
  intro cs
  induction cs with
  | nil =>
    intro acc hacc l hl
    simp only [splitLinesGo] at hl
    by_cases h : acc.isEmpty
    · rw [if_pos h] at hl; simp at hl
    · rw [if_neg h] at hl
      simp only [List.mem_singleton] at hl
      subst hl
      intro c hc
      exact hacc c (List.mem_reverse.mp hc)
  | cons c2 rest ih =>
    intro acc hacc l hl
    simp only [splitLinesGo] at hl
    by_cases h : c2 = '\n'
    · rw [if_pos h] at hl
      rcases List.mem_cons.mp hl with h1 | h2
      · subst h1
        intro c hc
        exact hacc c (List.mem_reverse.mp hc)
      · exact ih [] (by simp) l h2
    · rw [if_neg h] at hl
      refine ih (c2 :: acc) ?_ l hl
      intro x hx
      rcases List.mem_cons.mp hx with h1 | h2
      · subst h1; exact h
      · exact hacc x h2

/-- Helper: lines of a split text contain no newline. -/
theorem splitLinesC_no_newline (cs : List Char) :
    ∀ l ∈ splitLinesC cs, ∀ c ∈ l, c ≠ '\n' :=
  splitLinesGo_no_newline cs [] (by simp)


/-- Adjacency invariant after collapsing: a label-only line is never
followed by a nonempty line. -/
def collapsedNF (a b : List Char) : Prop :=
  isLabelOnlyC a = true → b = []

/-- Helper: a merged label-and-value line is never label-only again, since
the label colon sits strictly inside it. -/
theorem merged_not_labelOnly (l next : List Char)
    (hl : isLabelOnlyC l = true) (hn : next ≠ []) :
    isLabelOnlyC (l ++ ' ' :: next) = false := by
  have hcolon : ':' ∈ l.reverse := by
    unfold isLabelOnlyC at hl
    rcases hrv : l.reverse with _ | ⟨c, r⟩
    · rw [hrv] at hl; simp at hl
    · rw [hrv] at hl
      simp only [List.head?_cons, Bool.and_eq_true, decide_eq_true_eq,
        Option.some.injEq] at hl
      rw [hl.1.1]
      exact List.mem_cons_self _ _
  rcases hnr : next.reverse with _ | ⟨c2, r2⟩
  · exact absurd (List.reverse_eq_nil_iff.mp hnr) hn
  · unfold isLabelOnlyC
    have hM : (l ++ ' ' :: next).reverse = c2 :: (r2 ++ ' ' :: l.reverse) := by
      rw [List.reverse_append, List.reverse_cons, hnr]
      simp
    rw [hM]
    simp only [List.head?_cons, List.tail_cons]
    have hmem : ':' ∈ r2 ++ ' ' :: l.reverse :=
      List.mem_append_right r2 (List.mem_cons_of_mem ' ' hcolon)
    have hcont : (r2 ++ ' ' :: l.reverse).contains ':' = true := by
      simpa using hmem
    rw [hcont]
    simp

/-- Helper: collapsing keeps an empty leading line. -/
theorem collapse_head_keep (rest : List (List Char)) :
    (collapseWrappedFields ([] :: rest)).head? = some [] := by
  cases rest with
  | nil => rfl
  | cons next r2 =>
    simp only [collapseWrappedFields]
    rw [if_neg (by simp [isLabelOnlyC])]
    rfl

/-- Helper: collapsing establishes the adjacency invariant. -/
theorem collapse_chain (ls : List (List Char)) :
    List.Chain' collapsedNF (collapseWrappedFields ls) := by
  induction ls using collapseWrappedFields.induct with
  | case1 => simp [collapseWrappedFields]
  | case2 l => simp [collapseWrappedFields]
  | case3 l next rest hcond ih =>
    simp only [collapseWrappedFields, if_pos hcond]
    rw [List.chain'_cons']
    refine ⟨?_, ih⟩
    intro b _
    intro habs
    have hcond2 := hcond
    simp only [Bool.and_eq_true] at hcond2
    obtain ⟨h1, h2⟩ := hcond2
    have hn : next ≠ [] := by
      intro hnil; rw [hnil] at h2; simp at h2
    rw [merged_not_labelOnly l next h1 hn] at habs
    exact absurd habs (by simp)
  | case4 l next rest hcond ih =>
    simp only [collapseWrappedFields, if_neg hcond]
    rw [List.chain'_cons']
    refine ⟨?_, ih⟩
    intro b hb
    intro hlab
    have hnext : next = [] := by
      by_cases h : next = []
      · exact h
      · exfalso
        apply hcond
        rw [hlab]
        simp [h]
    subst hnext
    rw [collapse_head_keep rest] at hb
    simpa using hb

/-- Helper: a line list satisfying the adjacency invariant collapses to
itself. -/
theorem collapse_eq_self_of_chain (ls : List (List Char))
    (h : List.Chain' collapsedNF ls) : collapseWrappedFields ls = ls := by
  induction ls with
  | nil => rfl
  | cons l rest ih =>
    cases rest with
    | nil => rfl
    | cons next r2 =>
      have h1 : collapsedNF l next := (List.chain'_cons.mp h).1
      have h2 := (List.chain'_cons.mp h).2
      simp only [collapseWrappedFields]
      rw [if_neg ?_, ih h2]
      intro habs
      simp only [Bool.and_eq_true] at habs
      obtain ⟨ha, hb⟩ := habs
      rw [h1 ha] at hb
      simp at hb

/-- Helper: wrapped-field collapsing is idempotent. -/
theorem collapse_idempotent (ls : List (List Char)) :
    collapseWrappedFields (collapseWrappedFields ls) = collapseWrappedFields ls :=
  collapse_eq_self_of_chain _ (collapse_chain ls)


/-- Helper: slicing keeps only lines of the input. -/
theorem sliceGo_mem (ls : List (List Char)) :
    ∀ x ∈ sliceGo ls, x ∈ ls := by
  induction ls with
  | nil => simp [sliceGo]
  | cons l rest ih =>
    intro x hx
    simp only [sliceGo] at hx
    by_cases h : (rest.filter isDomainLineC).length ≥ 1
    · rw [if_pos h] at hx
      exact List.mem_cons_of_mem l (ih x hx)
    · rw [if_neg h] at hx
      exact hx

/-- Helper: slicing preserves the adjacency invariant. -/
theorem sliceGo_chain (ls : List (List Char))
    (h : List.Chain' collapsedNF ls) : List.Chain' collapsedNF (sliceGo ls) := by
  induction ls with
  | nil => simp [sliceGo]
  | cons l rest ih =>
    simp only [sliceGo]
    by_cases hc : (rest.filter isDomainLineC).length ≥ 1
    · rw [if_pos hc]
      exact ih ((List.chain'_cons'.mp h).2)
    · rw [if_neg hc]
      exact h

/-- Helper: after dropping to the last domain line at most one domain line
remains. -/
theorem sliceGo_count_le_one (ls : List (List Char)) :
    countDomainLines (sliceGo ls) ≤ 1 := by
  induction ls with
  | nil => simp [sliceGo, countDomainLines]
  | cons l rest ih =>
    simp only [sliceGo]
    by_cases hc : (rest.filter isDomainLineC).length ≥ 1
    · rw [if_pos hc]
      exact ih
    · rw [if_neg hc]
      have hzero : (rest.filter isDomainLineC).length = 0 := by omega
      unfold countDomainLines
      rw [List.filter_cons]
      by_cases hd : isDomainLineC l = true
      · rw [if_pos hd]
        simp [hzero]
      · rw [if_neg hd]
        omega

/-- Helper: latest-block isolation leaves at most one domain line. -/
theorem slice_count_le_one (ls : List (List Char)) :
    countDomainLines (sliceFromLastDomain ls) ≤ 1 := by
  unfold sliceFromLastDomain
  by_cases h : countDomainLines ls ≥ 2
  · rw [if_pos h]
    exact sliceGo_count_le_one ls
  · rw [if_neg h]
    omega

/-- Helper: with at most one domain line, isolation changes nothing. -/
theorem slice_eq_self_of_count (ls : List (List Char))
    (h : countDomainLines ls ≤ 1) : sliceFromLastDomain ls = ls := by
  unfold sliceFromLastDomain
  rw [if_neg (by omega)]

/-- Helper: latest-block isolation preserves the adjacency invariant. -/
theorem slice_chain (ls : List (List Char))
    (h : List.Chain' collapsedNF ls) :
    List.Chain' collapsedNF (sliceFromLastDomain ls) := by
  unfold sliceFromLastDomain
  by_cases hc : countDomainLines ls ≥ 2
  · rw [if_pos hc]; exact sliceGo_chain ls h
  · rw [if_neg hc]; exact h

/-- Helper: latest-block isolation keeps only lines of the input. -/
theorem slice_mem (ls : List (List Char)) :
    ∀ x ∈ sliceFromLastDomain ls, x ∈ ls := by
  unfold sliceFromLastDomain
  by_cases hc : countDomainLines ls ≥ 2
  · rw [if_pos hc]; exact sliceGo_mem ls
  · rw [if_neg hc]; intro x hx; exact hx

/-- Helper: isolation cannot introduce contact references. -/
theorem slice_no_refs (ls : List (List Char))
    (h : hasContactRefs ls = false) :
    hasContactRefs (sliceFromLastDomain ls) = false := by
  unfold hasContactRefs at h ⊢
  simp only [List.any_eq_false] at h ⊢
  intro rp hrp habs
  apply h rp hrp
  simp only [List.any_eq_true] at habs ⊢
  obtain ⟨l, hl, hp⟩ := habs
  exact ⟨l, slice_mem ls l hl, hp⟩

/-- Helper: with no contact reference lines, contact reconstruction changes
nothing. -/
theorem inject_eq_self_of_no_refs (ls : List (List Char))
    (h : hasContactRefs ls = false) : injectContacts ls = ls := by
  have hfind : ∀ rp ∈ afnicRoles, findLabelled ls rp.1 = none := by
    intro rp hrp
    unfold hasContactRefs at h
    simp only [List.any_eq_false] at h
    have h2 := h rp hrp
    simp only [List.any_eq_false] at h2
    unfold findLabelled
    rw [List.find?_eq_none.mpr]
    · rfl
    · intro l hl hp
      apply h2
      simp only [List.any_eq_true]
      exact ⟨l, hl, hp⟩
  unfold injectContacts
  have h1 := hfind ("holder-c:".data, "Registrant".data) (by simp [afnicRoles])
  have h2 := hfind ("admin-c:".data, "Admin".data) (by simp [afnicRoles])
  have h3 := hfind ("tech-c:".data, "Tech".data) (by simp [afnicRoles])
  simp only [afnicRoles, List.flatMap_cons, List.flatMap_nil] at *
  rw [h1, h2, h3]
  simp

/-- Helper: collapsing preserves newline-freeness of every line. -/
theorem collapse_no_newline (ls : List (List Char))
    (h : ∀ l ∈ ls, ∀ c ∈ l, c ≠ '\n') :
    ∀ l ∈ collapseWrappedFields ls, ∀ c ∈ l, c ≠ '\n' := by
  induction ls using collapseWrappedFields.induct with
  | case1 => simp [collapseWrappedFields]
  | case2 l => simpa [collapseWrappedFields] using h
  | case3 l next rest hcond ih =>
    simp only [collapseWrappedFields, if_pos hcond]
    intro x hx
    rcases List.mem_cons.mp hx with h1 | h2
    · intro c hc
      rw [h1] at hc
      rcases List.mem_append.mp hc with hcl | hcn
      · exact h l (by simp) c hcl
      · rcases List.mem_cons.mp hcn with hsp | hnx
        · subst hsp; decide
        · exact h next (by simp) c hnx
    · exact ih (fun y hy => h y (List.mem_cons_of_mem l (List.mem_cons_of_mem next hy))) x h2
  | case4 l next rest hcond ih =>
    simp only [collapseWrappedFields, if_neg hcond]
    intro x hx
    rcases List.mem_cons.mp hx with h1 | h2
    · intro c hc
      exact h l (by simp) c (h1 ▸ hc)
    · exact ih (fun y hy => h y (List.mem_cons_of_mem l hy)) x h2


/-- C9 counterexample: a text with a block-keyed contact reference is not a
fixed point of the modelled normalizer, because the synthetic contact lines
are appended again on re-normalization. -/
theorem normalize_idempotent_cex :
    normalize_raw_text (normalize_raw_text
      "holder-c: AA1\nnic-hdl: AA1\ncontact: Org X\ntype: ORGANIZATION") ≠
    normalize_raw_text
      "holder-c: AA1\nnic-hdl: AA1\ncontact: Org X\ntype: ORGANIZATION" := by
  decide

/-- C9 amended: wrapped-field collapsing is idempotent on every line list;
full normalization is idempotent on every raw text whose collapsed lines
contain no block-keyed contact reference (holder-c, admin-c, tech-c
lines). -/
theorem normalize_idempotent_amended :
    (∀ ls, collapseWrappedFields (collapseWrappedFields ls) = collapseWrappedFields ls)
  ∧ (∀ raw : String,
      hasContactRefs (collapseWrappedFields (splitLinesC raw.data)) = false →
      normalize_raw_text (normalize_raw_text raw) = normalize_raw_text raw) := by
  constructor
  · exact collapse_idempotent
  · intro raw hrefs
    have hrefs0 : hasContactRefs (sliceFromLastDomain (collapseWrappedFields
        (splitLinesC raw.data))) = false :=
      slice_no_refs _ hrefs
    have hinj : injectContacts (sliceFromLastDomain (collapseWrappedFields
        (splitLinesC raw.data))) =
        sliceFromLastDomain (collapseWrappedFields (splitLinesC raw.data)) :=
      inject_eq_self_of_no_refs _ hrefs0
    have hnorm1 : normalize_raw_text raw = String.mk (joinLinesC
        (sliceFromLastDomain (collapseWrappedFields (splitLinesC raw.data)))) := by
      unfold normalize_raw_text
      rw [hinj]
    have hNL : ∀ l ∈ sliceFromLastDomain (collapseWrappedFields
        (splitLinesC raw.data)), ∀ c ∈ l, c ≠ '\n' := by
      intro l hl
      exact collapse_no_newline _ (splitLinesC_no_newline raw.data) l
        (slice_mem _ l hl)
    have hsplit : splitLinesC (String.mk (joinLinesC (sliceFromLastDomain
        (collapseWrappedFields (splitLinesC raw.data))))).data =
        sliceFromLastDomain (collapseWrappedFields (splitLinesC raw.data)) := by
      exact splitLinesC_joinLinesC _ hNL
    have hchain : List.Chain' collapsedNF (sliceFromLastDomain
        (collapseWrappedFields (splitLinesC raw.data))) :=
      slice_chain _ (collapse_chain _)
    have hcol2 : collapseWrappedFields (sliceFromLastDomain
        (collapseWrappedFields (splitLinesC raw.data))) =
        sliceFromLastDomain (collapseWrappedFields (splitLinesC raw.data)) :=
      collapse_eq_self_of_chain _ hchain
    have hslice2 : sliceFromLastDomain (sliceFromLastDomain
        (collapseWrappedFields (splitLinesC raw.data))) =
        sliceFromLastDomain (collapseWrappedFields (splitLinesC raw.data)) :=
      slice_eq_self_of_count _ (slice_count_le_one _)
    rw [hnorm1]
    unfold normalize_raw_text
    rw [hsplit, hcol2, hslice2, hinj]

/-- Witness for the amended C9 at a concrete wrapped-field text with no
contact references. -/
theorem normalize_idempotent_witness :
    hasContactRefs (collapseWrappedFields (splitLinesC
      ("Domain Name:\nexample.com").data)) = false ∧
    normalize_raw_text (normalize_raw_text "Domain Name:\nexample.com") =
      normalize_raw_text "Domain Name:\nexample.com" :=
  ⟨by decide, normalize_idempotent_amended.2 "Domain Name:\nexample.com" (by decide)⟩

end StructlyWhois
